import Mathlib

/-!
Verification of the core components of the health-ecosystem-hub backend:
the request admission controller (`RateLimitMiddleware` in
src/backend/app/middleware/rate_limit.py), its startup configuration
(src/backend/app/config.py, src/backend/app/main.py), and the real-time
connection registry (`ConnectionManager` in src/backend/app/utils/websocket.py).

Python dicts are modelled as association lists over `String` keys
(insertion-ordered, like Python 3.7+ dicts), Python floats (timestamps)
as rationals, and Python `int(...)` truncation as `pyInt`.
-/

namespace HealthHub

/-! ## Association lists modelling Python dicts -/

def alGet {V : Type} : List (String × V) → String → Option V
  | [], _ => none
  | (k, v) :: rest, key => if k = key then some v else alGet rest key

def alInsert {V : Type} : List (String × V) → String → V → List (String × V)
  | [], key, v => [(key, v)]
  | (k, w) :: rest, key, v =>
    if k = key then (key, v) :: rest else (k, w) :: alInsert rest key v

def alErase {V : Type} : List (String × V) → String → List (String × V)
  | [], _ => []
  | (k, w) :: rest, key => if k = key then rest else (k, w) :: alErase rest key

def keysOf {V : Type} (l : List (String × V)) : List String := l.map Prod.fst

theorem alGet_alInsert_self {V : Type} (l : List (String × V)) (k : String) (v : V) :
    alGet (alInsert l k v) k = some v := by
  induction l with
  | nil => simp [alInsert, alGet]
  | cons p rest ih =>
    obtain ⟨k1, v1⟩ := p
    by_cases h : k1 = k
    · simp [alInsert, alGet, h]
    · simp [alInsert, alGet, h, ih]

theorem alGet_alInsert_ne {V : Type} (l : List (String × V)) (k k1 : String) (v : V)
    (h : k1 ≠ k) : alGet (alInsert l k v) k1 = alGet l k1 := by
  have hk : k ≠ k1 := Ne.symm h
  induction l with
  | nil => simp [alInsert, alGet, hk]
  | cons p rest ih =>
    obtain ⟨k2, v2⟩ := p
    by_cases h2 : k2 = k
    · subst h2
      simp [alInsert, alGet, hk]
    · simp only [alInsert, if_neg h2]
      by_cases h3 : k2 = k1
      · simp [alGet, h3]
      · simp [alGet, h3, ih]

/-! ## Admission controller: `RateLimitMiddleware`
(src/backend/app/middleware/rate_limit.py, lines 16-159).

The middleware keeps a `defaultdict` from client id to a per-client record
`{requests: deque of timestamps, blocked_until: float | None, warning_sent: bool}`;
`dispatch` makes one admission decision per request. -/

/-- Per-client window state: the `defaultdict` value in `RateLimitMiddleware.__init__`. -/
structure ClientState where
  requests : List ℚ
  blocked_until : Option ℚ
  warning_sent : Bool
deriving DecidableEq

/-- The default record produced by the `defaultdict` factory lambda. -/
def emptyClient : ClientState := { requests := [], blocked_until := none, warning_sent := false }

/-- State of one `RateLimitMiddleware` instance: the two configured limits and
the per-client table. -/
structure RateLimiter where
  requests_per_minute : ℤ
  burst_size : ℤ
  clients : List (String × ClientState)
deriving DecidableEq

/-- Python `int(q)` on a float: truncation toward zero. -/
def pyInt (q : ℚ) : ℤ := if 0 ≤ q then ⌊q⌋ else ⌈q⌉

/-- `self.clients[client_id]`: defaultdict lookup, creating the default record. -/
def getClient (m : RateLimiter) (cid : String) : ClientState :=
  (alGet m.clients cid).getD emptyClient

/-- `_is_client_blocked` (lines 124-127):
`blocked_until is not None and current_time < blocked_until`. -/
def is_client_blocked (c : ClientState) (now : ℚ) : Bool :=
  match c.blocked_until with
  | none => false
  | some b => decide (now < b)

/-- `_clean_old_requests` (lines 129-136): pop from the front while the head
is strictly older than `current_time - 60`. -/
def clean_old_requests (c : ClientState) (now : ℚ) : ClientState :=
  { c with requests := c.requests.dropWhile (fun t => decide (t < now - 60)) }

/-- `_is_rate_limited` (lines 138-148): per-minute count of the full (cleaned)
deque reaching `requests_per_minute`, OR the count of entries in the last 10
seconds strictly exceeding `burst_size`. -/
def is_rate_limited (n b : ℤ) (c : ClientState) (now : ℚ) : Bool :=
  let request_count := c.requests.length
  let recent_requests := c.requests.filter (fun t => decide (now - t < 10))
  decide ((request_count : ℤ) ≥ n) || decide ((recent_requests.length : ℤ) > b)

/-- `_calculate_block_duration` (lines 150-159). -/
def calculate_block_duration (n : ℤ) (c : ClientState) : ℚ :=
  let request_count := c.requests.length
  if (request_count : ℚ) > (n : ℚ) * 2 then 300
  else if (request_count : ℚ) > (n : ℚ) * 1.5 then 120
  else 60

/-- Outcome of one `dispatch` call: either of the two 429 responses (with their
`retry_after` body field), or an allowed request with the three
`X-RateLimit-Limit` / `X-RateLimit-Remaining` / `X-RateLimit-Reset` headers. -/
inductive Decision where
  | blocked (retry_after : ℤ)
  | limited (retry_after : ℤ)
  | allowed (limit remaining reset : ℤ)
deriving DecidableEq

/-- A decision is a denial iff it is one of the 429 responses. -/
def denied : Decision → Bool
  | .blocked _ => true
  | .limited _ => true
  | .allowed _ _ _ => false

/-- The unblocked part of `dispatch` (lines 58-97): clean, check the limit,
either deny-and-block or record the request and answer with headers. -/
def admitFresh (n b : ℤ) (c : ClientState) (now : ℚ) : Decision × ClientState :=
  let c1 := clean_old_requests c now
  if is_rate_limited n b c1 now then
    let c2 := { c1 with warning_sent := true }
    let d := calculate_block_duration n c2
    (.limited (pyInt d), { c2 with blocked_until := some (now + d) })
  else
    let c2 := { c1 with requests := c1.requests ++ [now] }
    let c3 := if (c2.requests.length : ℤ) < n then { c2 with warning_sent := false } else c2
    (.allowed n (max 0 (n - (c2.requests.length : ℤ))) (pyInt (now + 60)), c3)

/-- `dispatch` on one client record (lines 39-97): the blocked check comes
first and leaves the record untouched; otherwise the fresh path runs. -/
def dispatchClient (n b : ℤ) (c : ClientState) (now : ℚ) : Decision × ClientState :=
  if is_client_blocked c now then
    (.blocked (pyInt ((c.blocked_until.getD 0) - now)), c)
  else admitFresh n b c now

/-- `dispatch` at middleware level: defaultdict access plus write-back of the
mutated per-client record. -/
def dispatch (m : RateLimiter) (cid : String) (now : ℚ) : Decision × RateLimiter :=
  let r := dispatchClient m.requests_per_minute m.burst_size (getClient m cid) now
  (r.1, { m with clients := alInsert m.clients cid r.2 })

/-- `dispatch` with the blocked check skipped: the normal window algorithm.
Used to state that an expired block is evaluated fresh. -/
def dispatchFresh (m : RateLimiter) (cid : String) (now : ℚ) : Decision × RateLimiter :=
  let r := admitFresh m.requests_per_minute m.burst_size (getClient m cid) now
  (r.1, { m with clients := alInsert m.clients cid r.2 })

/-- Run `dispatch` for one client at a sequence of arrival times. -/
def runTimes (m : RateLimiter) (cid : String) : List ℚ → List Decision × RateLimiter
  | [] => ([], m)
  | t :: ts =>
    let r := dispatch m cid t
    let rest := runTimes r.2 cid ts
    (r.1 :: rest.1, rest.2)

/-! ## Startup configuration (src/backend/app/config.py, src/backend/app/main.py) -/

/-- The fields of `Settings` (config.py lines 10-70) relevant to the rate
limiter and to the explicit startup validation; pydantic enforces presence and
`int`-ness of `requests_per_minute` / `burst_size` but no positivity bound. -/
structure Settings where
  requests_per_minute : ℤ
  burst_size : ℤ
  supabase_url : String
  supabase_key : String
  secret_key : String
deriving DecidableEq

/-- The explicit startup validation loop (config.py lines 76-80): only
`supabase_url`, `supabase_key`, `secret_key` are checked, for Python
truthiness (non-empty string). -/
def validate_required (s : Settings) : Except String Unit :=
  if s.supabase_url = "" then .error "Required setting supabase_url is missing"
  else if s.supabase_key = "" then .error "Required setting supabase_key is missing"
  else if s.secret_key = "" then .error "Required setting secret_key is missing"
  else .ok ()

/-- The middleware instance added by `app.add_middleware(RateLimitMiddleware)`
(main.py line 89): no arguments are passed, so the `__init__` defaults
`requests_per_minute=60, burst_size=10` apply and the `Settings` values are
never consulted. -/
def appRateLimiter : RateLimiter :=
  { requests_per_minute := 60, burst_size := 10, clients := [] }

/-! ## Window lemmas -/

theorem filter_dropWhile_eq {α : Type} (p q : α → Bool) (l : List α)
    (h : ∀ x ∈ l, p x = true → q x = false) :
    (l.dropWhile q).filter p = l.filter p := by
  induction l with
  | nil => simp
  | cons x xs ih =>
    by_cases hq : q x = true
    · have hp : p x = false := by
        cases hpx : p x
        · rfl
        · exact absurd hq (by simp [h x (by simp) hpx])
      rw [List.dropWhile_cons_of_pos hq, List.filter_cons_of_neg (by simp [hp])]
      exact ih (fun y hy hpy => h y (by simp [hy]) hpy)
    · rw [List.dropWhile_cons_of_neg hq]

theorem length_filter_le_length_dropWhile {α : Type} (p q : α → Bool) (l : List α)
    (h : ∀ x ∈ l, p x = true → q x = false) :
    (l.filter p).length ≤ (l.dropWhile q).length := by
  rw [← filter_dropWhile_eq p q l h]
  exact (l.dropWhile q).length_filter_le p

theorem dropWhile_lt_eq_filter_ge (l : List ℚ) (a : ℚ) (h : l.Sorted (· ≤ ·)) :
    l.dropWhile (fun t => decide (t < a)) = l.filter (fun t => decide (a ≤ t)) := by
  induction l with
  | nil => simp
  | cons x xs ih =>
    rw [List.sorted_cons] at h
    by_cases hx : x < a
    · rw [List.dropWhile_cons_of_pos (by simpa using hx),
        List.filter_cons_of_neg (by simpa using hx)]
      exact ih h.2
    · push_neg at hx
      rw [List.dropWhile_cons_of_neg (by simpa using hx),
        List.filter_cons_of_pos (by simpa using hx)]
      have : ∀ y ∈ xs, (fun t => decide (a ≤ t)) y = true := by
        intro y hy
        simpa using le_trans hx (h.1 y hy)
      rw [List.filter_eq_self.mpr this]

/-! ## Claims about the admission controller -/

/-- C1: if N = requests_per_minute requests from a client were admitted inside
the rolling 60-second window ending at `now`, the next `dispatch` for that
client at `now` returns a 429 denial rather than admitting the request. -/
theorem minute_capacity_denied (m : RateLimiter) (cid : String) (now : ℚ)
    (h : m.requests_per_minute ≤
      (((getClient m cid).requests.filter (fun t => decide (now - 60 < t))).length : ℤ)) :
    denied (dispatch m cid now).1 = true := by
  unfold dispatch dispatchClient
  by_cases hb : is_client_blocked (getClient m cid) now
  · simp [hb, denied]
  · simp only [hb, if_false, Bool.false_eq_true]
    unfold admitFresh
    have hlen : (((getClient m cid).requests.filter (fun t => decide (now - 60 < t))).length : ℤ)
        ≤ ((clean_old_requests (getClient m cid) now).requests.length : ℤ) := by
      have := length_filter_le_length_dropWhile
        (fun t => decide (now - 60 < t)) (fun t => decide (t < now - 60))
        (getClient m cid).requests
        (by intro x hx hpx; simp at hpx ⊢; linarith)
      unfold clean_old_requests
      exact_mod_cast this
    have hrl : is_rate_limited m.requests_per_minute m.burst_size
        (clean_old_requests (getClient m cid) now) now = true := by
      unfold is_rate_limited
      simp only [Bool.or_eq_true, decide_eq_true_eq]
      left
      omega
    simp [hrl, denied]

/-- Example limiter for the C1 witness: capacity 2, client `c` with two
admitted requests at t=10 and t=20. -/
def exMinuteFull : RateLimiter :=
  { requests_per_minute := 2, burst_size := 10, clients := [("c", ⟨[10, 20], none, false⟩)] }

/-- C1 witness: with `requests_per_minute = 2` and two admitted requests (at
t=10 and t=20) in the window, the request at t=30 is denied. -/
theorem minute_capacity_denied_witness :
    denied (dispatch exMinuteFull "c" 30).1 = true :=
  minute_capacity_denied exMinuteFull "c" 30 (by norm_num [exMinuteFull, getClient, alGet])

/-- Example limiter for the C2 counterexample: burst capacity B = 1, client
`c` with exactly B = 1 request admitted at t=0 (inside the last 10 seconds),
per-minute cap far away. -/
def exBurstBoundary : RateLimiter :=
  { requests_per_minute := 100, burst_size := 1, clients := [("c", ⟨[0], none, false⟩)] }

/-- C2 counterexample: with `burst_size = 1` and the per-minute cap far away
(`requests_per_minute = 100`), one request (= B requests) admitted at t=0
inside the last 10 seconds does NOT make the (B+1)-th request at t=1 denied:
it is admitted with remaining 98, because `_is_rate_limited` uses the strict
comparison `len(recent) > burst_size`. -/
theorem burst_boundary_counterexample :
    (dispatch exBurstBoundary "c" 1).1 = .allowed 100 98 61 := by
  norm_num [exBurstBoundary, dispatch, dispatchClient, admitFresh, getClient, alGet,
    is_client_blocked, clean_old_requests, is_rate_limited, calculate_block_duration,
    pyInt, denied]

/-- C2 (amended): a request is burst-denied exactly when STRICTLY more than
`burst_size` admitted requests lie in the last 10 seconds, i.e. the (B+2)-th
request inside a 10-second window is the first one denied on the burst rule
alone. Stated as: if the client has more than B recorded requests inside the
last 10 seconds, the next `dispatch` returns a 429 denial. -/
theorem burst_over_capacity_denied (m : RateLimiter) (cid : String) (now : ℚ)
    (h : m.burst_size <
      (((getClient m cid).requests.filter (fun t => decide (now - t < 10))).length : ℤ)) :
    denied (dispatch m cid now).1 = true := by
  unfold dispatch dispatchClient
  by_cases hb : is_client_blocked (getClient m cid) now
  · simp [hb, denied]
  · simp only [hb, if_false, Bool.false_eq_true]
    unfold admitFresh
    have hfil : ((clean_old_requests (getClient m cid) now).requests.filter
        (fun t => decide (now - t < 10))) =
        ((getClient m cid).requests.filter (fun t => decide (now - t < 10))) := by
      unfold clean_old_requests
      exact filter_dropWhile_eq _ _ _ (by intro x hx hpx; simp at hpx ⊢; linarith)
    have hrl : is_rate_limited m.requests_per_minute m.burst_size
        (clean_old_requests (getClient m cid) now) now = true := by
      unfold is_rate_limited
      simp only [Bool.or_eq_true, decide_eq_true_eq]
      right
      rw [hfil]
      omega
    simp [hrl, denied]

/-- Example limiter for the C2 witness: burst capacity 1, two requests
admitted in the last 10 seconds. -/
def exBurstOver : RateLimiter :=
  { requests_per_minute := 100, burst_size := 1, clients := [("c", ⟨[0, 0], none, false⟩)] }

/-- C2 witness: burst_size = 1, two admitted requests in the last 10 seconds,
the next request is denied. -/
theorem burst_over_capacity_denied_witness :
    denied (dispatch exBurstOver "c" 1).1 = true :=
  burst_over_capacity_denied exBurstOver "c" 1 (by norm_num [exBurstOver, getClient, alGet])

/-- The scenario middleware of C3: `requests_per_minute=5, burst_size=3`,
empty client table. -/
def scenarioLimiter : RateLimiter :=
  { requests_per_minute := 5, burst_size := 3, clients := [] }

/-- C3 counterexample: with `requests_per_minute=5, burst_size=3`, three
requests inside one second are admitted with X-RateLimit-Remaining 4, 3, 2
(not 2, 1, 0 as claimed), and the 4th request at t=2 is ALSO admitted (with
remaining 1), not denied. -/
theorem scenario_remaining_counterexample :
    (runTimes scenarioLimiter "c" [0, 0, 1, 2]).1 =
      [.allowed 5 4 60, .allowed 5 3 60, .allowed 5 2 61, .allowed 5 1 62] := by
  norm_num [runTimes, scenarioLimiter, dispatch, dispatchClient, admitFresh, getClient,
    alGet, alInsert, emptyClient, is_client_blocked, clean_old_requests, is_rate_limited,
    calculate_block_duration, pyInt]

/-- C3 (amended): in the scenario `requests_per_minute=5, burst_size=3`, the
three requests inside one second succeed with remaining 4, 3, 2, the 4th
request at t=2 succeeds with remaining 1, and the FIFTH request (at t=2, with
4 requests then recorded in the 10-second burst window) is the first denial,
a 429 with `retry_after = 60`. -/
theorem scenario_five_three_run :
    (runTimes scenarioLimiter "c" [0, 0, 1, 2, 2]).1 =
      [.allowed 5 4 60, .allowed 5 3 60, .allowed 5 2 61, .allowed 5 1 62, .limited 60] := by
  norm_num [runTimes, scenarioLimiter, dispatch, dispatchClient, admitFresh, getClient,
    alGet, alInsert, emptyClient, is_client_blocked, clean_old_requests, is_rate_limited,
    calculate_block_duration, pyInt]

/-- Client record with one event exactly at the boundary of the 60-second
window that ends at now=60. -/
def exBoundaryClient : ClientState := ⟨[0], none, false⟩

/-- C4 counterexample: a recorded event exactly at the window boundary
`now - 60` (here: event at t=0, now=60) survives `_clean_old_requests`
(occupancy 1), while the count of events strictly newer than `now - 60` is 0. -/
theorem purge_boundary_counterexample :
    (clean_old_requests exBoundaryClient 60).requests.length = 1 ∧
    (exBoundaryClient.requests.filter (fun t => decide ((60 : ℚ) - 60 < t))).length = 0 := by
  constructor
  · norm_num [exBoundaryClient, clean_old_requests]
  · norm_num [exBoundaryClient]

/-- C4 (amended): for a sorted (non-decreasing) timestamp sequence, the purge
keeps exactly the events with timestamp GREATER THAN OR EQUAL to `now - 60`;
events exactly at the boundary ARE counted. -/
theorem purge_keeps_boundary (c : ClientState) (now : ℚ)
    (h : c.requests.Sorted (· ≤ ·)) :
    (clean_old_requests c now).requests =
      c.requests.filter (fun t => decide (now - 60 ≤ t)) := by
  unfold clean_old_requests
  exact dropWhile_lt_eq_filter_ge c.requests (now - 60) h

/-- Client record with the sorted event sequence `[0, 30]`. -/
def exSortedClient : ClientState := ⟨[0, 30], none, false⟩

/-- C4 witness: concrete sorted sequence `[0, 30]` purged at now=60 keeps both
entries, matching the ≥-filter. -/
theorem purge_keeps_boundary_witness :
    (clean_old_requests exSortedClient 60).requests =
      (exSortedClient.requests.filter (fun t => decide ((60 : ℚ) - 60 ≤ t))) :=
  purge_keeps_boundary exSortedClient 60 (by norm_num [exSortedClient])

/-- C5: while a client's `blocked_until` lies in the future, `dispatch` denies
with `retry_after = int(blocked_until - now)` and leaves the client's window
state completely unchanged; once `now` reaches `blocked_until`, `dispatch`
coincides with the fresh window algorithm (no automatic denial). -/
theorem blocked_client_frame (m : RateLimiter) (cid : String) (now b : ℚ)
    (hb : (getClient m cid).blocked_until = some b) :
    (now < b →
      (dispatch m cid now).1 = .blocked (pyInt (b - now)) ∧
      getClient (dispatch m cid now).2 cid = getClient m cid) ∧
    (b ≤ now → dispatch m cid now = dispatchFresh m cid now) := by
  constructor
  · intro hlt
    have hblocked : is_client_blocked (getClient m cid) now = true := by
      unfold is_client_blocked
      rw [hb]
      simpa using hlt
    constructor
    · unfold dispatch dispatchClient
      simp [hblocked, hb]
    · unfold dispatch dispatchClient
      simp only [hblocked, if_true]
      unfold getClient
      simp [alGet_alInsert_self]
  · intro hge
    have hfree : is_client_blocked (getClient m cid) now = false := by
      unfold is_client_blocked
      rw [hb]
      simpa using not_lt.mpr hge
    unfold dispatch dispatchClient dispatchFresh
    simp [hfree]

/-- Example limiter for the C5 witness: client `c` blocked until t=100. -/
def exBlocked : RateLimiter :=
  { requests_per_minute := 2, burst_size := 10, clients := [("c", ⟨[], some 100, false⟩)] }

/-- C5 witness: client blocked until t=100; at t=40 the request is denied with
retry_after int(100 - 40) and the record is untouched; at t=100 dispatch
equals the fresh algorithm. -/
theorem blocked_client_frame_witness :
    ((dispatch exBlocked "c" 40).1 = .blocked (pyInt ((100 : ℚ) - 40)) ∧
      getClient (dispatch exBlocked "c" 40).2 "c" = getClient exBlocked "c") ∧
    dispatch exBlocked "c" 100 = dispatchFresh exBlocked "c" 100 := by
  refine ⟨?_, ?_⟩
  · exact (blocked_client_frame exBlocked "c" 40 100 rfl).1 (by norm_num)
  · exact (blocked_client_frame exBlocked "c" 100 100 rfl).2 (by norm_num)

/-- A configuration with non-positive limits and all required string settings
present. -/
def badSettings : Settings :=
  { requests_per_minute := -5, burst_size := 0,
    supabase_url := "url", supabase_key := "key", secret_key := "secret" }

/-- C6 (code bug): startup accepts a configuration with
`requests_per_minute = -5` and `burst_size = 0` — the explicit validation
loop checks only the three string settings — and `main.py` line 89 constructs
`RateLimitMiddleware` with no arguments, so the middleware silently runs with
the `__init__` defaults 60 / 10 regardless of the configured values. The spec
requires a fatal positivity check at startup; the code has none. -/
theorem config_limits_not_validated :
    validate_required badSettings = Except.ok () ∧
    badSettings.requests_per_minute = -5 ∧
    badSettings.burst_size = 0 ∧
    appRateLimiter.requests_per_minute = 60 ∧
    appRateLimiter.burst_size = 10 :=
  ⟨rfl, rfl, rfl, rfl, rfl⟩

/-! ## Connection registry: `ConnectionManager`
(src/backend/app/utils/websocket.py, lines 17-210). -/

/-- The `NotificationMessage` fields the registry logic carries around
(schemas/common.py); the structured payload is not inspected by the
registry. -/
structure NM where
  type : String
  title : String
  message : String
deriving DecidableEq

/-- Modelled from the spec: the duck-typed transport channel behind a
registered connection. The WebSocket class itself is an external FastAPI
collaborator, not code of this repository; following section 9 of the spec it
is modelled as an interface whose send either succeeds or fails, `ok` telling
which; `close()` failures are caught and logged (lines 100-103). -/
structure Chan where
  ok : Bool
deriving DecidableEq

/-- The five fields of `ConnectionManager.__init__` (lines 20-25). -/
structure ConnState where
  active_connections : List (String × Chan)
  connection_user : List (String × String)
  user_connections : List (String × List String)
  user_roles : List (String × String)
  connection_count : Nat
deriving DecidableEq

/-- The freshly constructed `ConnectionManager`. -/
def emptyConn : ConnState := ⟨[], [], [], [], 0⟩

/-- Observable effects of the registry operations. -/
inductive Ev where
  | accepted (cid : String)
  | sent (cid : String) (t : String)
  | sendFailed (cid : String)
  | closed (cid : String)
deriving DecidableEq

/-- The send loop of `send_personal_message` (lines 113-121): iterate the
identity's connection ids, skip ids missing from `active_connections`, send
on each present channel, collecting the `disconnected_connections` set of
failed ids. Pure: no registry mutation happens inside the loop. -/
def sendLoop (st : ConnState) (m : NM) : List String → List Ev × List String
  | [] => ([], [])
  | cid :: rest =>
    let r := sendLoop st m rest
    match alGet st.active_connections cid with
    | none => r
    | some ch =>
      if ch.ok then (.sent cid m.type :: r.1, r.2)
      else (.sendFailed cid :: r.1, if cid ∈ r.2 then r.2 else cid :: r.2)

/-- The `user_offline` announcement built in `disconnect` (lines 89-98). -/
def offlineNM (uid : String) : NM :=
  ⟨"user_offline", "User Offline", "User " ++ uid ++ " is now offline"⟩

/-- The welcome message sent in `connect` (lines 47-55). -/
def welcomeNM : NM :=
  ⟨"connection", "Connected", "Successfully connected to real-time updates"⟩

/-- The `user_online` announcement built in `connect` (lines 58-67). -/
def onlineNM (uid : String) : NM :=
  ⟨"user_online", "User Online", "User " ++ uid ++ " is now online"⟩

/-- Pending call shapes of the mutually recursive cleanup code: `disconnect`,
the sequential disconnect loop ending `send_personal_message`,
`send_personal_message` itself, the iteration of `broadcast_to_role` over a
snapshot of `user_roles`, and `broadcast_to_role`. -/
inductive Call where
  | disc (cid : String)
  | discList (cids : List String)
  | send (uid : String) (m : NM)
  | sendList (items : List (String × String)) (role : String) (ex : Option String) (m : NM)
  | bcast (role : String) (ex : Option String) (m : NM)

/-- List-length component of the termination measure for `runF`. -/
def cmeasure : Call → Nat
  | .discList l => l.length + 1
  | .sendList l _ _ _ => l.length + 1
  | _ => 0

/-- One interpreter for the mutually recursive `ConnectionManager` operations
(`disconnect` lines 69-105, `send_personal_message` lines 107-125,
`broadcast_to_role` lines 140-144), with a fuel bound on the recursion depth
through the offline broadcast inside `disconnect`. `none` means the fuel ran
out; `connManagerFuel` always suffices (cleanup_recursion_terminates).
This interpreter covers the error-free executions only: its `.bcast` iterates
a snapshot of `user_roles`, and when `connection_user` lacks an id that
`active_connections` holds it returns cleanly. In Python both paths raise —
line 79's `del` a KeyError, and line 142's `for` over the live dict a
RuntimeError once the nested cleanup deletes an entry mid-iteration; `runL`
below models those exceptional exits faithfully and shows when they fire. -/
def runF (fuel : Nat) (st : ConnState) (c : Call) : Option (ConnState × List Ev) :=
  if fuel = 0 then none
  else
    match c with
    | .disc cid =>
      match alGet st.active_connections cid with
      | none => some (st, [])
      | some _ =>
        let uidO := alGet st.connection_user cid
        let st1 : ConnState :=
          { st with active_connections := alErase st.active_connections cid,
                    connection_user := alErase st.connection_user cid }
        match uidO with
        | none => some (st1, [.closed cid])
        | some uid =>
          if uid ≠ "" ∧ (alGet st1.user_connections uid).isSome then
            let l1 := ((alGet st1.user_connections uid).getD []).erase cid
            if l1 = [] then
              let st2 : ConnState :=
                { st1 with user_connections := alErase st1.user_connections uid,
                           user_roles := alErase st1.user_roles uid }
              match runF (fuel - 1) st2 (.bcast "hospital_staff" (some uid) (offlineNM uid)) with
              | none => none
              | some (st3, evs) => some (st3, evs ++ [.closed cid])
            else
              some ({ st1 with user_connections := alInsert st1.user_connections uid l1 },
                [.closed cid])
          else some (st1, [.closed cid])
    | .discList [] => some (st, [])
    | .discList (cid :: rest) =>
      match runF fuel st (.disc cid) with
      | none => none
      | some (st1, e1) =>
        match runF fuel st1 (.discList rest) with
        | none => none
        | some (st2, e2) => some (st2, e1 ++ e2)
    | .send uid m =>
      match alGet st.user_connections uid with
      | none => some (st, [])
      | some conns =>
        let r := sendLoop st m conns
        match runF (fuel - 1) st (.discList r.2) with
        | none => none
        | some (st1, e1) => some (st1, r.1 ++ e1)
    | .sendList [] _ _ _ => some (st, [])
    | .sendList ((uid, r) :: rest) role ex m =>
      if r = role ∧ some uid ≠ ex then
        match runF fuel st (.send uid m) with
        | none => none
        | some (st1, e1) =>
          match runF fuel st1 (.sendList rest role ex m) with
          | none => none
          | some (st2, e2) => some (st2, e1 ++ e2)
      else runF fuel st (.sendList rest role ex m)
    | .bcast role ex m => runF (fuel - 1) st (.sendList st.user_roles role ex m)
  termination_by (fuel, cmeasure c)
  decreasing_by
    all_goals simp [cmeasure]
    all_goals omega

/-- Fuel that always suffices for the cleanup recursion: each removal cycle
(send, disconnect-loop entry, broadcast) is at most three frames deep per
registered channel. -/
def connManagerFuel (st : ConnState) : Nat := 3 * st.active_connections.length + 3

/-- `ConnectionManager.disconnect` (lines 69-105). -/
def disconnect (st : ConnState) (cid : String) : ConnState × List Ev :=
  (runF (connManagerFuel st) st (.disc cid)).getD (st, [])

/-- `ConnectionManager.send_personal_message` (lines 107-125): its registry
and delivery effects. The Python function itself returns `None` on every
path; see `send_personal_message_ret`. -/
def send_personal_message (st : ConnState) (uid : String) (m : NM) : ConnState × List Ev :=
  (runF (connManagerFuel st) st (.send uid m)).getD (st, [])

/-- The value returned by `send_personal_message`: both exits (the bare
`return` for an unknown identity, line 111, and falling off the end of the
function) return Python `None`; no delivered count is computed or returned.
Typed as an `Option` of the count the spec claims, to make the mismatch
statable. -/
def send_personal_message_ret (_st : ConnState) (_uid : String) (_m : NM) : Option Nat := none

/-- `ConnectionManager.broadcast_to_role` (lines 140-144). -/
def broadcast_to_role (st : ConnState) (role : String) (m : NM) (ex : Option String) :
    ConnState × List Ev :=
  (runF (connManagerFuel st) st (.bcast role ex m)).getD (st, [])

/-- Decimal rendering of a natural number, as a Python f-string produces. -/
def natRepr (n : Nat) : String :=
  if n = 0 then "0" else ⟨((Nat.digits 10 n).map Nat.digitChar).reverse⟩

/-- The connection id minted by `connect` (line 31):
an f-string joining the user id and the counter with an underscore. -/
def connId (uid : String) (n : Nat) : String := uid ++ "_" ++ natRepr n

/-- The numeric suffix after the last underscore of a connection id; used to
show freshness of newly minted ids. -/
def countOf (cid : String) : Nat :=
  Nat.ofDigits 10 ((cid.data.reverse.takeWhile (fun c => c ≠ '_')).map (fun c => c.toNat - 48))

/-- `ConnectionManager.connect` (lines 27-67): accept the socket, register the
new channel under a fresh id, record the inverse index and the identity's
set, cache the role if truthy, bump the counter, send the welcome message to
the identity, then announce presence to the `hospital_staff` group excluding
the new identity. -/
def connect (st : ConnState) (ws : Chan) (uid : String) (role : Option String) :
    ConnState × List Ev :=
  let cid := connId uid st.connection_count
  let prev := (alGet st.user_connections uid).getD []
  let st1 : ConnState :=
    { active_connections := alInsert st.active_connections cid ws,
      connection_user := alInsert st.connection_user cid uid,
      user_connections :=
        alInsert st.user_connections uid (if cid ∈ prev then prev else prev ++ [cid]),
      user_roles :=
        match role with
        | some r => if r ≠ "" then alInsert st.user_roles uid r else st.user_roles
        | none => st.user_roles,
      connection_count := st.connection_count + 1 }
  let r1 := send_personal_message st1 uid welcomeNM
  let r2 := broadcast_to_role r1.1 "hospital_staff" (onlineNM uid) (some uid)
  (r2.1, .accepted cid :: (r1.2 ++ r2.2))

/-- The snapshot returned by `get_connection_stats` (lines 193-199). -/
structure ConnStats where
  total_connections : Nat
  unique_users : Nat
  connections_by_role : List (String × Nat)
deriving DecidableEq

/-- `_get_connections_by_role` (lines 201-206). -/
def connections_by_role (st : ConnState) : List (String × Nat) :=
  st.user_roles.foldl
    (fun acc p =>
      alInsert acc p.2
        (((alGet acc p.2).getD 0) + ((alGet st.user_connections p.1).getD []).length))
    []

/-- `get_connection_stats` (lines 193-199). -/
def get_connection_stats (st : ConnState) : ConnStats :=
  ⟨st.active_connections.length, st.user_connections.length, connections_by_role st⟩

/-- Registry operations driven from outside: a websocket endpoint connecting
(the channel's send behaviour, the path identity, an optional role), or a
disconnect by connection id. -/
inductive Op where
  | connect (ok : Bool) (uid : String) (role : Option String)
  | disconnect (cid : String)

/-- Apply one operation to the registry. -/
def opStep (st : ConnState) : Op → ConnState
  | .connect ok uid role => (connect st ⟨ok⟩ uid role).1
  | .disconnect cid => (disconnect st cid).1

/-- Run a sequence of operations from the freshly constructed manager. -/
def runOps (ops : List Op) : ConnState := ops.foldl opStep emptyConn

/-- The registry invariant of the spec's data model: duplicate-free key sets,
`active_connections` and `connection_user` over the same ids, every indexed
channel id inside its identity's set, identities nonempty with nonempty
duplicate-free channel sets whose members all map back to that identity (so a
channel id belongs to exactly one identity's set), every cached role on a
live identity, and every registered id carrying a numeric suffix below the
connection counter (freshness of minted ids). -/
structure Invariant (st : ConnState) : Prop where
  ndA : (keysOf st.active_connections).Nodup
  ndCU : (keysOf st.connection_user).Nodup
  ndUC : (keysOf st.user_connections).Nodup
  ndR : (keysOf st.user_roles).Nodup
  cuOfA : ∀ cid ∈ keysOf st.active_connections, (alGet st.connection_user cid).isSome = true
  aOfCU : ∀ cid ∈ keysOf st.connection_user, (alGet st.active_connections cid).isSome = true
  inv1 : ∀ p ∈ st.connection_user, p.1 ∈ (alGet st.user_connections p.2).getD []
  fwd : ∀ q ∈ st.user_connections,
    q.1 ≠ "" ∧ q.2 ≠ [] ∧ q.2.Nodup ∧ ∀ cid ∈ q.2, alGet st.connection_user cid = some q.1
  roleLive : ∀ r ∈ st.user_roles, (alGet st.user_connections r.1).isSome = true
  cntBound : ∀ cid ∈ keysOf st.active_connections, countOf cid < st.connection_count

/-! ## Association list lemmas used by the registry proofs -/

theorem keysOf_cons {V : Type} (k : String) (v : V) (rest : List (String × V)) :
    keysOf ((k, v) :: rest) = k :: keysOf rest := rfl

theorem alGet_eq_none_iff {V : Type} (l : List (String × V)) (k : String) :
    alGet l k = none ↔ k ∉ keysOf l := by
  induction l with
  | nil => simp [alGet, keysOf]
  | cons p rest ih =>
    obtain ⟨k1, v1⟩ := p
    rw [keysOf_cons]
    by_cases h : k1 = k
    · subst h
      simp [alGet]
    · simp [alGet, h, ih, Ne.symm h]

theorem alGet_isSome_iff {V : Type} (l : List (String × V)) (k : String) :
    (alGet l k).isSome = true ↔ k ∈ keysOf l := by
  rw [Option.isSome_iff_ne_none, ne_eq, alGet_eq_none_iff, not_not]

theorem alGet_some_mem {V : Type} (l : List (String × V)) (k : String) (v : V)
    (h : alGet l k = some v) : (k, v) ∈ l := by
  induction l with
  | nil => simp [alGet] at h
  | cons p rest ih =>
    obtain ⟨k1, v1⟩ := p
    by_cases h1 : k1 = k
    · subst h1
      simp [alGet] at h
      simp [h]
    · simp [alGet, h1] at h
      simp [ih h]

theorem mem_keysOf_of_mem {V : Type} {l : List (String × V)} {p : String × V}
    (h : p ∈ l) : p.1 ∈ keysOf l := List.mem_map_of_mem Prod.fst h

theorem alErase_sublist {V : Type} (l : List (String × V)) (k : String) :
    (alErase l k).Sublist l := by
  induction l with
  | nil => simp [alErase]
  | cons p rest ih =>
    obtain ⟨k1, v1⟩ := p
    by_cases h : k1 = k
    · simp only [alErase, if_pos h]
      exact (List.Sublist.refl rest).cons (k1, v1)
    · simp only [alErase, if_neg h]
      exact ih.cons₂ (k1, v1)

theorem alErase_length_of_mem {V : Type} (l : List (String × V)) (k : String)
    (h : k ∈ keysOf l) : (alErase l k).length + 1 = l.length := by
  induction l with
  | nil => simp [keysOf] at h
  | cons p rest ih =>
    obtain ⟨k1, v1⟩ := p
    rw [keysOf_cons] at h
    by_cases h1 : k1 = k
    · simp [alErase, h1]
    · have h2 : k ∈ keysOf rest := by
        rcases List.mem_cons.mp h with h3 | h3
        · exact absurd h3.symm h1
        · exact h3
      simp [alErase, h1, ih h2]

theorem alGet_alErase_self {V : Type} (l : List (String × V)) (k : String)
    (h : (keysOf l).Nodup) : alGet (alErase l k) k = none := by
  induction l with
  | nil => simp [alErase, alGet]
  | cons p rest ih =>
    obtain ⟨k1, v1⟩ := p
    rw [keysOf_cons, List.nodup_cons] at h
    by_cases h1 : k1 = k
    · subst h1
      simp only [alErase, if_pos rfl]
      rw [alGet_eq_none_iff]
      exact h.1
    · simp [alErase, alGet, h1, ih h.2]

theorem alGet_alErase_ne {V : Type} (l : List (String × V)) (k k1 : String)
    (h : k1 ≠ k) : alGet (alErase l k) k1 = alGet l k1 := by
  induction l with
  | nil => simp [alErase]
  | cons p rest ih =>
    obtain ⟨k2, v2⟩ := p
    by_cases h2 : k2 = k
    · subst h2
      simp [alErase, alGet, Ne.symm h]
    · simp only [alErase, if_neg h2]
      by_cases h3 : k2 = k1
      · simp [alGet, h3]
      · simp [alGet, h3, ih]

theorem mem_alErase_iff {V : Type} (l : List (String × V)) (k : String) (p : String × V)
    (h : (keysOf l).Nodup) : p ∈ alErase l k ↔ p ∈ l ∧ p.1 ≠ k := by
  induction l with
  | nil => simp [alErase]
  | cons q rest ih =>
    obtain ⟨k1, v1⟩ := q
    rw [keysOf_cons, List.nodup_cons] at h
    by_cases h1 : k1 = k
    · subst h1
      simp only [alErase, if_pos rfl]
      constructor
      · intro hp
        have hne : p.1 ≠ k1 := by
          intro he
          apply h.1
          rw [← he]
          exact mem_keysOf_of_mem hp
        exact ⟨List.mem_cons_of_mem _ hp, hne⟩
      · rintro ⟨hp, hne⟩
        rcases List.mem_cons.mp hp with rfl | hp2
        · exact absurd rfl hne
        · exact hp2
    · simp only [alErase, if_neg h1]
      constructor
      · intro hp
        rcases List.mem_cons.mp hp with rfl | hp2
        · exact ⟨List.mem_cons_self _ _, fun he => h1 he⟩
        · have h3 := (ih h.2).mp hp2
          exact ⟨List.mem_cons_of_mem _ h3.1, h3.2⟩
      · rintro ⟨hp, hne⟩
        rcases List.mem_cons.mp hp with rfl | hp2
        · exact List.mem_cons_self _ _
        · exact List.mem_cons_of_mem _ ((ih h.2).mpr ⟨hp2, hne⟩)

theorem mem_keysOf_alErase_iff {V : Type} (l : List (String × V)) (k c : String)
    (h : (keysOf l).Nodup) : c ∈ keysOf (alErase l k) ↔ c ∈ keysOf l ∧ c ≠ k := by
  constructor
  · intro hc
    obtain ⟨p, hp, he⟩ := List.mem_map.mp hc
    have h2 := (mem_alErase_iff l k p h).mp hp
    subst he
    exact ⟨mem_keysOf_of_mem h2.1, h2.2⟩
  · rintro ⟨hc, hne⟩
    obtain ⟨p, hp, he⟩ := List.mem_map.mp hc
    subst he
    exact mem_keysOf_of_mem ((mem_alErase_iff l k p h).mpr ⟨hp, hne⟩)

theorem mem_keysOf_alInsert_iff {V : Type} (l : List (String × V)) (k c : String) (v : V) :
    c ∈ keysOf (alInsert l k v) ↔ c = k ∨ c ∈ keysOf l := by
  induction l with
  | nil => simp [alInsert, keysOf]
  | cons p rest ih =>
    obtain ⟨k1, v1⟩ := p
    by_cases h1 : k1 = k
    · subst h1
      rw [show alInsert ((k1, v1) :: rest) k1 v = (k1, v) :: rest from by simp [alInsert]]
      rw [keysOf_cons, keysOf_cons]
      simp only [List.mem_cons]
      tauto
    · simp only [alInsert, if_neg h1, keysOf_cons, List.mem_cons]
      rw [ih]
      tauto

theorem nodup_keysOf_alInsert {V : Type} (l : List (String × V)) (k : String) (v : V)
    (h : (keysOf l).Nodup) : (keysOf (alInsert l k v)).Nodup := by
  induction l with
  | nil => simp [alInsert, keysOf]
  | cons p rest ih =>
    obtain ⟨k1, v1⟩ := p
    rw [keysOf_cons, List.nodup_cons] at h
    by_cases h1 : k1 = k
    · subst h1
      rw [show alInsert ((k1, v1) :: rest) k1 v = (k1, v) :: rest from by simp [alInsert]]
      rw [keysOf_cons, List.nodup_cons]
      exact h
    · simp only [alInsert, if_neg h1]
      rw [keysOf_cons, List.nodup_cons]
      refine ⟨?_, ih h.2⟩
      rw [mem_keysOf_alInsert_iff]
      rintro (rfl | hmem)
      · exact h1 rfl
      · exact h.1 hmem

theorem mem_alInsert_iff {V : Type} (l : List (String × V)) (k : String) (v : V)
    (p : String × V) (h : (keysOf l).Nodup) :
    p ∈ alInsert l k v ↔ p = (k, v) ∨ (p ∈ l ∧ p.1 ≠ k) := by
  induction l with
  | nil => simp [alInsert]
  | cons q rest ih =>
    obtain ⟨k1, v1⟩ := q
    rw [keysOf_cons, List.nodup_cons] at h
    by_cases h1 : k1 = k
    · subst h1
      rw [show alInsert ((k1, v1) :: rest) k1 v = (k1, v) :: rest from by simp [alInsert]]
      simp only [List.mem_cons]
      constructor
      · rintro (hp | hp)
        · exact Or.inl hp
        · have hne : p.1 ≠ k1 := by
            intro he
            apply h.1
            rw [← he]
            exact mem_keysOf_of_mem hp
          exact Or.inr ⟨Or.inr hp, hne⟩
      · rintro (hp | ⟨hp, hne⟩)
        · exact Or.inl hp
        · rcases hp with rfl | hp2
          · exact absurd rfl hne
          · exact Or.inr hp2
    · simp only [alInsert, if_neg h1, List.mem_cons]
      rw [ih h.2]
      constructor
      · rintro (rfl | hrest)
        · exact Or.inr ⟨Or.inl rfl, fun he => h1 he⟩
        · rcases hrest with rfl | ⟨hp, hne⟩
          · exact Or.inl rfl
          · exact Or.inr ⟨Or.inr hp, hne⟩
      · rintro (rfl | ⟨hp, hne⟩)
        · exact Or.inr (Or.inl rfl)
        · rcases hp with rfl | hp2
          · exact Or.inl rfl
          · exact Or.inr (Or.inr ⟨hp2, hne⟩)

theorem sublist_length_lt {α : Type} {s l : List α} {a : α}
    (hs : s.Sublist l) (hal : a ∈ l) (has : a ∉ s) : s.length < l.length := by
  rcases Nat.lt_or_ge s.length l.length with h | h
  · exact h
  · have : s.length = l.length := Nat.le_antisymm hs.length_le h
    exact absurd (hs.eq_of_length this ▸ hal) has

/-! ## Step equations for `runF` -/

theorem runF_zero (st : ConnState) (c : Call) : runF 0 st c = none := by
  rw [runF.eq_def]
  simp

/-- Body of the `disconnect` branch once the connection id is known to be
registered: remove from the two id-keyed maps, then clean up the identity's
set and, when the set became empty, the role cache plus the offline
broadcast; finally close the socket. -/
def discStep (fuel : Nat) (st : ConnState) (cid : String) : Option (ConnState × List Ev) :=
  match alGet st.connection_user cid with
  | none =>
    some ({ st with active_connections := alErase st.active_connections cid,
                    connection_user := alErase st.connection_user cid }, [.closed cid])
  | some uid =>
    if uid ≠ "" ∧ (alGet st.user_connections uid).isSome then
      if ((alGet st.user_connections uid).getD []).erase cid = [] then
        match runF (fuel - 1)
            { st with active_connections := alErase st.active_connections cid,
                      connection_user := alErase st.connection_user cid,
                      user_connections := alErase st.user_connections uid,
                      user_roles := alErase st.user_roles uid }
            (.bcast "hospital_staff" (some uid) (offlineNM uid)) with
        | none => none
        | some (st3, evs) => some (st3, evs ++ [.closed cid])
      else
        some ({ st with active_connections := alErase st.active_connections cid,
                        connection_user := alErase st.connection_user cid,
                        user_connections := alInsert st.user_connections uid
                          (((alGet st.user_connections uid).getD []).erase cid) },
          [.closed cid])
    else
      some ({ st with active_connections := alErase st.active_connections cid,
                      connection_user := alErase st.connection_user cid }, [.closed cid])

theorem runF_disc_not_mem (fuel : Nat) (st : ConnState) (cid : String)
    (hf : fuel ≠ 0) (h : alGet st.active_connections cid = none) :
    runF fuel st (.disc cid) = some (st, []) := by
  rw [runF.eq_def]
  simp [hf, h]

theorem runF_disc_mem (fuel : Nat) (st : ConnState) (cid : String) (ws : Chan)
    (hf : fuel ≠ 0) (h : alGet st.active_connections cid = some ws) :
    runF fuel st (.disc cid) = discStep fuel st cid := by
  rw [runF.eq_def, discStep]
  simp [hf, h]

theorem runF_discList_nil (fuel : Nat) (st : ConnState) (hf : fuel ≠ 0) :
    runF fuel st (.discList []) = some (st, []) := by
  rw [runF.eq_def]
  simp [hf]

theorem runF_discList_cons (fuel : Nat) (st : ConnState) (cid : String) (rest : List String)
    (hf : fuel ≠ 0) :
    runF fuel st (.discList (cid :: rest)) =
      match runF fuel st (.disc cid) with
      | none => none
      | some (st1, e1) =>
        match runF fuel st1 (.discList rest) with
        | none => none
        | some (st2, e2) => some (st2, e1 ++ e2) := by
  rw [runF.eq_def]
  simp [hf]

theorem runF_send_none (fuel : Nat) (st : ConnState) (uid : String) (m : NM)
    (hf : fuel ≠ 0) (h : alGet st.user_connections uid = none) :
    runF fuel st (.send uid m) = some (st, []) := by
  rw [runF.eq_def]
  simp [hf, h]

theorem runF_send_some (fuel : Nat) (st : ConnState) (uid : String) (m : NM)
    (conns : List String) (hf : fuel ≠ 0) (h : alGet st.user_connections uid = some conns) :
    runF fuel st (.send uid m) =
      match runF (fuel - 1) st (.discList (sendLoop st m conns).2) with
      | none => none
      | some (st1, e1) => some (st1, (sendLoop st m conns).1 ++ e1) := by
  rw [runF.eq_def]
  simp [hf, h]

theorem runF_sendList_nil (fuel : Nat) (st : ConnState) (role : String) (ex : Option String)
    (m : NM) (hf : fuel ≠ 0) :
    runF fuel st (.sendList [] role ex m) = some (st, []) := by
  rw [runF.eq_def]
  simp [hf]

theorem runF_sendList_cons (fuel : Nat) (st : ConnState) (uid r : String)
    (rest : List (String × String)) (role : String) (ex : Option String) (m : NM)
    (hf : fuel ≠ 0) :
    runF fuel st (.sendList ((uid, r) :: rest) role ex m) =
      if r = role ∧ some uid ≠ ex then
        match runF fuel st (.send uid m) with
        | none => none
        | some (st1, e1) =>
          match runF fuel st1 (.sendList rest role ex m) with
          | none => none
          | some (st2, e2) => some (st2, e1 ++ e2)
      else runF fuel st (.sendList rest role ex m) := by
  rw [runF.eq_def]
  simp [hf]

theorem runF_bcast (fuel : Nat) (st : ConnState) (role : String) (ex : Option String) (m : NM)
    (hf : fuel ≠ 0) :
    runF fuel st (.bcast role ex m) = runF (fuel - 1) st (.sendList st.user_roles role ex m) := by
  rw [runF.eq_def]
  simp [hf]

/-! ## The cleanup recursion only shrinks the registry -/

/-- The cleanup chain never adds channels or role-cache entries and never
touches the connection counter. -/
def Shrinks (st st2 : ConnState) : Prop :=
  st2.active_connections.Sublist st.active_connections ∧
  st2.user_roles.Sublist st.user_roles ∧
  st2.connection_count = st.connection_count

theorem shrinksRefl (st : ConnState) : Shrinks st st :=
  ⟨List.Sublist.refl _, List.Sublist.refl _, Eq.refl _⟩

theorem shrinksTrans {a b c : ConnState} (h1 : Shrinks a b) (h2 : Shrinks b c) : Shrinks a c :=
  ⟨h2.1.trans h1.1, h2.2.1.trans h1.2.1, h2.2.2.trans h1.2.2⟩

theorem runF_shrink (fuel : Nat) :
    ∀ st c st2 evs, runF fuel st c = some (st2, evs) → Shrinks st st2 := by
  induction fuel with
  | zero =>
    intro st c st2 evs h
    rw [runF_zero] at h
    exact absurd h (by simp)
  | succ fuel ih =>
    have hf : fuel + 1 ≠ 0 := Nat.succ_ne_zero fuel
    have hdisc : ∀ st cid st2 evs,
        runF (fuel + 1) st (.disc cid) = some (st2, evs) → Shrinks st st2 := by
      intro st cid st2 evs h
      cases hA : alGet st.active_connections cid with
      | none =>
        rw [runF_disc_not_mem _ _ _ hf hA] at h
        obtain ⟨rfl, rfl⟩ : st = st2 ∧ [] = evs := by simpa using h
        exact shrinksRefl st
      | some ws =>
        rw [runF_disc_mem _ _ _ ws hf hA, discStep] at h
        have hsub1 : Shrinks st
            { st with active_connections := alErase st.active_connections cid,
                      connection_user := alErase st.connection_user cid } :=
          ⟨alErase_sublist _ _, List.Sublist.refl _, Eq.refl _⟩
        cases hU : alGet st.connection_user cid with
        | none =>
          simp only [hU] at h
          obtain ⟨rfl, rfl⟩ : _ ∧ _ := by simpa using h
          exact hsub1
        | some uid =>
          simp only [hU] at h
          by_cases hg : uid ≠ "" ∧ (alGet st.user_connections uid).isSome = true
          · rw [if_pos hg] at h
            by_cases hl : (((alGet st.user_connections uid).getD []).erase cid) = []
            · rw [if_pos hl, Nat.add_sub_cancel] at h
              cases hB : runF fuel
                  { st with
                    active_connections := alErase st.active_connections cid,
                    connection_user := alErase st.connection_user cid,
                    user_connections := alErase st.user_connections uid,
                    user_roles := alErase st.user_roles uid }
                  (.bcast "hospital_staff" (some uid) (offlineNM uid)) with
              | none =>
                simp [hB] at h
              | some r3 =>
                obtain ⟨st3, evs3⟩ := r3
                simp only [hB] at h
                obtain ⟨rfl, rfl⟩ : _ ∧ _ := by simpa using h
                have hsub2 : Shrinks st
                    { st with
                      active_connections := alErase st.active_connections cid,
                      connection_user := alErase st.connection_user cid,
                      user_connections := alErase st.user_connections uid,
                      user_roles := alErase st.user_roles uid } :=
                  ⟨alErase_sublist _ _, alErase_sublist _ _, Eq.refl _⟩
                exact shrinksTrans hsub2 (ih _ _ _ _ hB)
            · rw [if_neg hl] at h
              obtain ⟨rfl, rfl⟩ : _ ∧ _ := by simpa using h
              exact ⟨alErase_sublist _ _, List.Sublist.refl _, Eq.refl _⟩
          · rw [if_neg hg] at h
            obtain ⟨rfl, rfl⟩ : _ ∧ _ := by simpa using h
            exact hsub1
    have hdlist : ∀ l st st2 evs,
        runF (fuel + 1) st (.discList l) = some (st2, evs) → Shrinks st st2 := by
      intro l
      induction l with
      | nil =>
        intro st st2 evs h
        rw [runF_discList_nil _ _ hf] at h
        obtain ⟨rfl, rfl⟩ : _ ∧ _ := by simpa using h
        exact shrinksRefl st
      | cons cid rest ihl =>
        intro st st2 evs h
        rw [runF_discList_cons _ _ _ _ hf] at h
        cases h1 : runF (fuel + 1) st (.disc cid) with
        | none =>
          simp [h1] at h
        | some r1 =>
          obtain ⟨st1, e1⟩ := r1
          simp only [h1] at h
          cases h2 : runF (fuel + 1) st1 (.discList rest) with
          | none =>
            simp [h2] at h
          | some r2 =>
            obtain ⟨stx, e2⟩ := r2
            simp only [h2] at h
            obtain ⟨rfl, rfl⟩ : _ ∧ _ := by simpa using h
            exact shrinksTrans (hdisc _ _ _ _ h1) (ihl _ _ _ h2)
    have hsend : ∀ st uid m st2 evs,
        runF (fuel + 1) st (.send uid m) = some (st2, evs) → Shrinks st st2 := by
      intro st uid m st2 evs h
      cases hU : alGet st.user_connections uid with
      | none =>
        rw [runF_send_none _ _ _ _ hf hU] at h
        obtain ⟨rfl, rfl⟩ : _ ∧ _ := by simpa using h
        exact shrinksRefl st
      | some conns =>
        rw [runF_send_some _ _ _ _ _ hf hU, Nat.add_sub_cancel] at h
        cases h1 : runF fuel st (.discList (sendLoop st m conns).2) with
        | none =>
          simp [h1] at h
        | some r1 =>
          obtain ⟨st1, e1⟩ := r1
          simp only [h1] at h
          obtain ⟨rfl, rfl⟩ : _ ∧ _ := by simpa using h
          exact ih _ _ _ _ h1
    have hslist : ∀ items st role ex m st2 evs,
        runF (fuel + 1) st (.sendList items role ex m) = some (st2, evs) → Shrinks st st2 := by
      intro items
      induction items with
      | nil =>
        intro st role ex m st2 evs h
        rw [runF_sendList_nil _ _ _ _ _ hf] at h
        obtain ⟨rfl, rfl⟩ : _ ∧ _ := by simpa using h
        exact shrinksRefl st
      | cons p rest ihl =>
        obtain ⟨uid, r⟩ := p
        intro st role ex m st2 evs h
        rw [runF_sendList_cons _ _ _ _ _ _ _ _ hf] at h
        by_cases hc : r = role ∧ some uid ≠ ex
        · rw [if_pos hc] at h
          cases h1 : runF (fuel + 1) st (.send uid m) with
          | none =>
            simp [h1] at h
          | some r1 =>
            obtain ⟨st1, e1⟩ := r1
            simp only [h1] at h
            cases h2 : runF (fuel + 1) st1 (.sendList rest role ex m) with
            | none =>
              simp [h2] at h
            | some r2 =>
              obtain ⟨stx, e2⟩ := r2
              simp only [h2] at h
              obtain ⟨rfl, rfl⟩ : _ ∧ _ := by simpa using h
              exact shrinksTrans (hsend _ _ _ _ _ h1) (ihl _ _ _ _ _ _ h2)
        · rw [if_neg hc] at h
          exact ihl _ _ _ _ _ _ h
    have hbcast : ∀ st role ex m st2 evs,
        runF (fuel + 1) st (.bcast role ex m) = some (st2, evs) → Shrinks st st2 := by
      intro st role ex m st2 evs h
      rw [runF_bcast _ _ _ _ _ hf, Nat.add_sub_cancel] at h
      exact ih _ _ _ _ h
    intro st c st2 evs h
    cases c with
    | disc cid => exact hdisc _ _ _ _ h
    | discList l => exact hdlist _ _ _ _ h
    | send uid m => exact hsend _ _ _ _ _ h
    | sendList items role ex m => exact hslist _ _ _ _ _ _ _ h
    | bcast role ex m => exact hbcast _ _ _ _ _ _ h

/-! ## Fuel adequacy: the cleanup recursion terminates -/

/-- Fuel needed by each call shape, linear in the number of registered
channels: each removal cycle descends through at most three fuel levels. -/
def callNeeds : Call → Nat → Nat
  | .disc _, n => 3 * n + 1
  | .discList _, n => 3 * n + 1
  | .send _ _, n => 3 * n + 2
  | .sendList _ _ _ _, n => 3 * n + 2
  | .bcast _ _ _, n => 3 * n + 3

theorem runF_isSome (fuel : Nat) :
    ∀ st c, callNeeds c st.active_connections.length ≤ fuel →
      (runF fuel st c).isSome = true := by
  induction fuel with
  | zero =>
    intro st c hn
    exact absurd hn (by cases c <;> simp [callNeeds])
  | succ fuel ih =>
    have hf : fuel + 1 ≠ 0 := Nat.succ_ne_zero fuel
    have hdisc : ∀ st cid, 3 * st.active_connections.length + 1 ≤ fuel + 1 →
        (runF (fuel + 1) st (.disc cid)).isSome = true := by
      intro st cid hn
      cases hA : alGet st.active_connections cid with
      | none =>
        rw [runF_disc_not_mem _ _ _ hf hA]
        rfl
      | some ws =>
        rw [runF_disc_mem _ _ _ ws hf hA]
        unfold discStep
        cases hU : alGet st.connection_user cid with
        | none => simp [hU]
        | some uid =>
          simp only [hU]
          by_cases hg : uid ≠ "" ∧ (alGet st.user_connections uid).isSome = true
          · rw [if_pos hg]
            by_cases hl : ((alGet st.user_connections uid).getD []).erase cid = []
            · rw [if_pos hl, Nat.add_sub_cancel]
              have hcid : cid ∈ keysOf st.active_connections := by
                rw [← alGet_isSome_iff, hA]
                rfl
              have hlen : (alErase st.active_connections cid).length + 1
                  = st.active_connections.length := alErase_length_of_mem _ _ hcid
              have hb := ih
                { st with active_connections := alErase st.active_connections cid,
                          connection_user := alErase st.connection_user cid,
                          user_connections := alErase st.user_connections uid,
                          user_roles := alErase st.user_roles uid }
                (.bcast "hospital_staff" (some uid) (offlineNM uid))
                (by simp only [callNeeds]; omega)
              cases hB : runF fuel
                  { st with active_connections := alErase st.active_connections cid,
                            connection_user := alErase st.connection_user cid,
                            user_connections := alErase st.user_connections uid,
                            user_roles := alErase st.user_roles uid }
                  (.bcast "hospital_staff" (some uid) (offlineNM uid)) with
              | none =>
                rw [hB] at hb
                exact absurd hb (by simp)
              | some r3 =>
                obtain ⟨st3, evs3⟩ := r3
                simp [hB]
            · rw [if_neg hl]
              rfl
          · rw [if_neg hg]
            rfl
    have hdlist : ∀ l st, 3 * st.active_connections.length + 1 ≤ fuel + 1 →
        (runF (fuel + 1) st (.discList l)).isSome = true := by
      intro l
      induction l with
      | nil =>
        intro st hn
        rw [runF_discList_nil _ _ hf]
        rfl
      | cons cid rest ihl =>
        intro st hn
        rw [runF_discList_cons _ _ _ _ hf]
        have h1 := hdisc st cid hn
        cases h1e : runF (fuel + 1) st (.disc cid) with
        | none =>
          rw [h1e] at h1
          exact absurd h1 (by simp)
        | some r1 =>
          obtain ⟨st1, e1⟩ := r1
          have hs := runF_shrink (fuel + 1) st (.disc cid) st1 e1 h1e
          have h2 := ihl st1 (by have := hs.1.length_le; omega)
          cases h2e : runF (fuel + 1) st1 (.discList rest) with
          | none =>
            rw [h2e] at h2
            exact absurd h2 (by simp)
          | some r2 =>
            obtain ⟨st2, e2⟩ := r2
            simp [h1e, h2e]
    have hsend : ∀ st uid m, 3 * st.active_connections.length + 2 ≤ fuel + 1 →
        (runF (fuel + 1) st (.send uid m)).isSome = true := by
      intro st uid m hn
      cases hU : alGet st.user_connections uid with
      | none =>
        rw [runF_send_none _ _ _ _ hf hU]
        rfl
      | some conns =>
        rw [runF_send_some _ _ _ _ _ hf hU, Nat.add_sub_cancel]
        have h1 := ih st (.discList (sendLoop st m conns).2) (by simp only [callNeeds]; omega)
        cases h1e : runF fuel st (.discList (sendLoop st m conns).2) with
        | none =>
          rw [h1e] at h1
          exact absurd h1 (by simp)
        | some r1 =>
          obtain ⟨st1, e1⟩ := r1
          simp [h1e]
    have hslist : ∀ items st role ex m, 3 * st.active_connections.length + 2 ≤ fuel + 1 →
        (runF (fuel + 1) st (.sendList items role ex m)).isSome = true := by
      intro items
      induction items with
      | nil =>
        intro st role ex m hn
        rw [runF_sendList_nil _ _ _ _ _ hf]
        rfl
      | cons p rest ihl =>
        obtain ⟨uid, r⟩ := p
        intro st role ex m hn
        rw [runF_sendList_cons _ _ _ _ _ _ _ _ hf]
        by_cases hc : r = role ∧ some uid ≠ ex
        · rw [if_pos hc]
          have h1 := hsend st uid m hn
          cases h1e : runF (fuel + 1) st (.send uid m) with
          | none =>
            rw [h1e] at h1
            exact absurd h1 (by simp)
          | some r1 =>
            obtain ⟨st1, e1⟩ := r1
            have hs := runF_shrink (fuel + 1) st (.send uid m) st1 e1 h1e
            have h2 := ihl st1 role ex m (by have := hs.1.length_le; omega)
            cases h2e : runF (fuel + 1) st1 (.sendList rest role ex m) with
            | none =>
              rw [h2e] at h2
              exact absurd h2 (by simp)
            | some r2 =>
              obtain ⟨st2, e2⟩ := r2
              simp [h1e, h2e]
        · rw [if_neg hc]
          exact ihl st role ex m hn
    have hbcast : ∀ st role ex m, 3 * st.active_connections.length + 3 ≤ fuel + 1 →
        (runF (fuel + 1) st (.bcast role ex m)).isSome = true := by
      intro st role ex m hn
      rw [runF_bcast _ _ _ _ _ hf, Nat.add_sub_cancel]
      exact ih st (.sendList st.user_roles role ex m) (by simp only [callNeeds]; omega)
    intro st c hn
    cases c with
    | disc cid => exact hdisc st cid (by simpa [callNeeds] using hn)
    | discList l => exact hdlist l st (by simpa [callNeeds] using hn)
    | send uid m => exact hsend st uid m (by simpa [callNeeds] using hn)
    | sendList items role ex m => exact hslist items st role ex m (by simpa [callNeeds] using hn)
    | bcast role ex m => exact hbcast st role ex m (by simpa [callNeeds] using hn)

/-- The fuel used by the total wrappers always suffices. -/
theorem runF_fuel_isSome (st : ConnState) (c : Call) :
    (runF (connManagerFuel st) st c).isSome = true :=
  runF_isSome _ st c (by cases c <;> simp only [callNeeds, connManagerFuel] <;> omega)

/-! ## The registry invariant is preserved by the cleanup recursion -/

theorem eq_singleton_of_erase_eq_nil {l : List String} {a : String} (hm : a ∈ l)
    (he : l.erase a = []) : l = [a] := by
  cases l with
  | nil => cases hm
  | cons x xs =>
    by_cases hx : x = a
    · subst hx
      rw [List.erase_cons_head] at he
      rw [he]
    · rw [List.erase_cons_tail (by simpa using hx)] at he
      exact absurd he (by simp)

/-- Disconnecting a registered channel that was its identity's last one keeps
the invariant: the channel leaves both id-keyed maps, the identity's entry
and its role-cache entry are removed. -/
theorem invariant_disc_last (st : ConnState) (cid uid : String)
    (hinv : Invariant st)
    (hU : alGet st.connection_user cid = some uid)
    (hl : ((alGet st.user_connections uid).getD []).erase cid = []) :
    Invariant { st with active_connections := alErase st.active_connections cid,
                        connection_user := alErase st.connection_user cid,
                        user_connections := alErase st.user_connections uid,
                        user_roles := alErase st.user_roles uid } := by
  have hmemCU : (cid, uid) ∈ st.connection_user := alGet_some_mem _ _ _ hU
  have hcidl : cid ∈ (alGet st.user_connections uid).getD [] := hinv.inv1 _ hmemCU
  obtain ⟨l, hUC⟩ : ∃ l, alGet st.user_connections uid = some l := by
    cases hx : alGet st.user_connections uid with
    | none =>
      rw [hx] at hcidl
      cases hcidl
    | some l => exact ⟨l, rfl⟩
  rw [hUC] at hcidl hl
  simp only [Option.getD_some] at hcidl hl
  have hsingle : l = [cid] := eq_singleton_of_erase_eq_nil hcidl hl
  refine ⟨?_, ?_, ?_, ?_, ?_, ?_, ?_, ?_, ?_, ?_⟩
  · exact (((alErase_sublist _ _).map Prod.fst).nodup) hinv.ndA
  · exact (((alErase_sublist _ _).map Prod.fst).nodup) hinv.ndCU
  · exact (((alErase_sublist _ _).map Prod.fst).nodup) hinv.ndUC
  · exact (((alErase_sublist _ _).map Prod.fst).nodup) hinv.ndR
  · intro c hc
    obtain ⟨hcA, hcne⟩ := (mem_keysOf_alErase_iff _ _ _ hinv.ndA).mp hc
    rw [alGet_alErase_ne _ _ _ hcne]
    exact hinv.cuOfA c hcA
  · intro c hc
    obtain ⟨hcCU, hcne⟩ := (mem_keysOf_alErase_iff _ _ _ hinv.ndCU).mp hc
    rw [alGet_alErase_ne _ _ _ hcne]
    exact hinv.aOfCU c hcCU
  · intro p hp
    obtain ⟨hpCU, hpne⟩ := (mem_alErase_iff _ _ _ hinv.ndCU).mp hp
    by_cases hpu : p.2 = uid
    · exfalso
      have hmem := hinv.inv1 p hpCU
      rw [hpu, hUC] at hmem
      simp only [Option.getD_some, hsingle, List.mem_singleton] at hmem
      exact hpne hmem
    · rw [alGet_alErase_ne _ _ _ hpu]
      exact hinv.inv1 p hpCU
  · intro q hq2
    obtain ⟨hqUC, hqne⟩ := (mem_alErase_iff _ _ _ hinv.ndUC).mp hq2
    obtain ⟨hne, hnil, hnd, hmap⟩ := hinv.fwd q hqUC
    refine ⟨hne, hnil, hnd, ?_⟩
    intro c hc
    have hcCU := hmap c hc
    have hcne : c ≠ cid := by
      intro he
      rw [he, hU] at hcCU
      exact hqne (by injection hcCU with h3; exact h3.symm)
    rw [alGet_alErase_ne _ _ _ hcne]
    exact hcCU
  · intro r hr
    obtain ⟨hrR, hrne⟩ := (mem_alErase_iff _ _ _ hinv.ndR).mp hr
    rw [alGet_alErase_ne _ _ _ hrne]
    exact hinv.roleLive r hrR
  · intro c hc
    obtain ⟨hcA, _⟩ := (mem_keysOf_alErase_iff _ _ _ hinv.ndA).mp hc
    exact hinv.cntBound c hcA

/-- Disconnecting a registered channel whose identity keeps other channels
preserves the invariant: the identity's set merely loses the channel. -/
theorem invariant_disc_keep (st : ConnState) (cid uid : String)
    (hinv : Invariant st)
    (hU : alGet st.connection_user cid = some uid)
    (hl : ((alGet st.user_connections uid).getD []).erase cid ≠ []) :
    Invariant { st with active_connections := alErase st.active_connections cid,
                        connection_user := alErase st.connection_user cid,
                        user_connections := alInsert st.user_connections uid
                          (((alGet st.user_connections uid).getD []).erase cid) } := by
  have hmemCU : (cid, uid) ∈ st.connection_user := alGet_some_mem _ _ _ hU
  have hcidl : cid ∈ (alGet st.user_connections uid).getD [] := hinv.inv1 _ hmemCU
  obtain ⟨l, hUC⟩ : ∃ l, alGet st.user_connections uid = some l := by
    cases hx : alGet st.user_connections uid with
    | none =>
      rw [hx] at hcidl
      cases hcidl
    | some l => exact ⟨l, rfl⟩
  rw [hUC] at hcidl hl ⊢
  simp only [Option.getD_some] at hcidl hl ⊢
  obtain ⟨hne, hnil, hnd, hmap⟩ := hinv.fwd (uid, l) (alGet_some_mem _ _ _ hUC)
  refine ⟨?_, ?_, ?_, ?_, ?_, ?_, ?_, ?_, ?_, ?_⟩
  · exact (((alErase_sublist _ _).map Prod.fst).nodup) hinv.ndA
  · exact (((alErase_sublist _ _).map Prod.fst).nodup) hinv.ndCU
  · exact nodup_keysOf_alInsert _ _ _ hinv.ndUC
  · exact hinv.ndR
  · intro c hc
    obtain ⟨hcA, hcne⟩ := (mem_keysOf_alErase_iff _ _ _ hinv.ndA).mp hc
    rw [alGet_alErase_ne _ _ _ hcne]
    exact hinv.cuOfA c hcA
  · intro c hc
    obtain ⟨hcCU, hcne⟩ := (mem_keysOf_alErase_iff _ _ _ hinv.ndCU).mp hc
    rw [alGet_alErase_ne _ _ _ hcne]
    exact hinv.aOfCU c hcCU
  · intro p hp
    obtain ⟨hpCU, hpne⟩ := (mem_alErase_iff _ _ _ hinv.ndCU).mp hp
    by_cases hpu : p.2 = uid
    · rw [hpu, alGet_alInsert_self]
      have hmem := hinv.inv1 p hpCU
      rw [hpu, hUC] at hmem
      simp only [Option.getD_some] at hmem ⊢
      exact ((List.Nodup.mem_erase_iff hnd).mpr ⟨hpne, hmem⟩)
    · rw [alGet_alInsert_ne _ _ _ _ hpu]
      exact hinv.inv1 p hpCU
  · intro q hq2
    rcases (mem_alInsert_iff _ _ _ _ hinv.ndUC).mp hq2 with hq3 | ⟨hqUC, hqne⟩
    · subst hq3
      refine ⟨hne, hl, List.Nodup.erase cid hnd, ?_⟩
      intro c hc
      obtain ⟨hcne, hcl⟩ := (List.Nodup.mem_erase_iff hnd).mp hc
      rw [alGet_alErase_ne _ _ _ hcne]
      exact hmap c hcl
    · obtain ⟨hne2, hnil2, hnd2, hmap2⟩ := hinv.fwd q hqUC
      refine ⟨hne2, hnil2, hnd2, ?_⟩
      intro c hc
      have hcCU := hmap2 c hc
      have hcne : c ≠ cid := by
        intro he
        rw [he, hU] at hcCU
        exact hqne (by injection hcCU with h3; exact h3.symm)
      rw [alGet_alErase_ne _ _ _ hcne]
      exact hcCU
  · intro r hr
    by_cases hru : r.1 = uid
    · rw [hru, alGet_alInsert_self]
      rfl
    · rw [alGet_alInsert_ne _ _ _ _ hru]
      exact hinv.roleLive r hr
  · intro c hc
    obtain ⟨hcA, _⟩ := (mem_keysOf_alErase_iff _ _ _ hinv.ndA).mp hc
    exact hinv.cntBound c hcA

/-- The registry invariant is preserved by every run of the cleanup
recursion. -/
theorem runF_invariant (fuel : Nat) :
    ∀ st c st2 evs, Invariant st → runF fuel st c = some (st2, evs) → Invariant st2 := by
  induction fuel with
  | zero =>
    intro st c st2 evs _ h
    rw [runF_zero] at h
    exact absurd h (by simp)
  | succ fuel ih =>
    have hf : fuel + 1 ≠ 0 := Nat.succ_ne_zero fuel
    have hdisc : ∀ st cid st2 evs, Invariant st →
        runF (fuel + 1) st (.disc cid) = some (st2, evs) → Invariant st2 := by
      intro st cid st2 evs hinv h
      cases hA : alGet st.active_connections cid with
      | none =>
        rw [runF_disc_not_mem _ _ _ hf hA] at h
        obtain ⟨rfl, rfl⟩ : st = st2 ∧ [] = evs := by simpa using h
        exact hinv
      | some ws =>
        rw [runF_disc_mem _ _ _ ws hf hA, discStep] at h
        have hcidA : cid ∈ keysOf st.active_connections := by
          rw [← alGet_isSome_iff, hA]
          rfl
        cases hU : alGet st.connection_user cid with
        | none =>
          have := hinv.cuOfA cid hcidA
          rw [hU] at this
          exact absurd this (by simp)
        | some uid =>
          simp only [hU] at h
          have hmemCU : (cid, uid) ∈ st.connection_user := alGet_some_mem _ _ _ hU
          have hcidl : cid ∈ (alGet st.user_connections uid).getD [] := hinv.inv1 _ hmemCU
          have hg : uid ≠ "" ∧ (alGet st.user_connections uid).isSome = true := by
            obtain ⟨l, hUC⟩ : ∃ l, alGet st.user_connections uid = some l := by
              cases hx : alGet st.user_connections uid with
              | none =>
                rw [hx] at hcidl
                cases hcidl
              | some l => exact ⟨l, rfl⟩
            obtain ⟨hne, _, _, _⟩ := hinv.fwd (uid, l) (alGet_some_mem _ _ _ hUC)
            exact ⟨hne, by rw [hUC]; rfl⟩
          rw [if_pos hg] at h
          by_cases hl : ((alGet st.user_connections uid).getD []).erase cid = []
          · rw [if_pos hl, Nat.add_sub_cancel] at h
            cases hB : runF fuel
                { st with active_connections := alErase st.active_connections cid,
                          connection_user := alErase st.connection_user cid,
                          user_connections := alErase st.user_connections uid,
                          user_roles := alErase st.user_roles uid }
                (.bcast "hospital_staff" (some uid) (offlineNM uid)) with
            | none => simp [hB] at h
            | some r3 =>
              obtain ⟨st3, evs3⟩ := r3
              simp only [hB] at h
              obtain ⟨rfl, rfl⟩ : _ ∧ _ := by simpa using h
              exact ih _ _ _ _ (invariant_disc_last st cid uid hinv hU hl) hB
          · rw [if_neg hl] at h
            obtain ⟨rfl, rfl⟩ : _ ∧ _ := by simpa using h
            exact invariant_disc_keep st cid uid hinv hU hl
    have hdlist : ∀ l st st2 evs, Invariant st →
        runF (fuel + 1) st (.discList l) = some (st2, evs) → Invariant st2 := by
      intro l
      induction l with
      | nil =>
        intro st st2 evs hinv h
        rw [runF_discList_nil _ _ hf] at h
        obtain ⟨rfl, rfl⟩ : _ ∧ _ := by simpa using h
        exact hinv
      | cons cid rest ihl =>
        intro st st2 evs hinv h
        rw [runF_discList_cons _ _ _ _ hf] at h
        cases h1 : runF (fuel + 1) st (.disc cid) with
        | none => simp [h1] at h
        | some r1 =>
          obtain ⟨st1, e1⟩ := r1
          simp only [h1] at h
          cases h2 : runF (fuel + 1) st1 (.discList rest) with
          | none => simp [h2] at h
          | some r2 =>
            obtain ⟨stx, e2⟩ := r2
            simp only [h2] at h
            obtain ⟨rfl, rfl⟩ : _ ∧ _ := by simpa using h
            exact ihl _ _ _ (hdisc _ _ _ _ hinv h1) h2
    have hsend : ∀ st uid m st2 evs, Invariant st →
        runF (fuel + 1) st (.send uid m) = some (st2, evs) → Invariant st2 := by
      intro st uid m st2 evs hinv h
      cases hU : alGet st.user_connections uid with
      | none =>
        rw [runF_send_none _ _ _ _ hf hU] at h
        obtain ⟨rfl, rfl⟩ : _ ∧ _ := by simpa using h
        exact hinv
      | some conns =>
        rw [runF_send_some _ _ _ _ _ hf hU, Nat.add_sub_cancel] at h
        cases h1 : runF fuel st (.discList (sendLoop st m conns).2) with
        | none => simp [h1] at h
        | some r1 =>
          obtain ⟨st1, e1⟩ := r1
          simp only [h1] at h
          obtain ⟨rfl, rfl⟩ : _ ∧ _ := by simpa using h
          exact ih _ _ _ _ hinv h1
    have hslist : ∀ items st role ex m st2 evs, Invariant st →
        runF (fuel + 1) st (.sendList items role ex m) = some (st2, evs) → Invariant st2 := by
      intro items
      induction items with
      | nil =>
        intro st role ex m st2 evs hinv h
        rw [runF_sendList_nil _ _ _ _ _ hf] at h
        obtain ⟨rfl, rfl⟩ : _ ∧ _ := by simpa using h
        exact hinv
      | cons p rest ihl =>
        obtain ⟨uid, r⟩ := p
        intro st role ex m st2 evs hinv h
        rw [runF_sendList_cons _ _ _ _ _ _ _ _ hf] at h
        by_cases hc : r = role ∧ some uid ≠ ex
        · rw [if_pos hc] at h
          cases h1 : runF (fuel + 1) st (.send uid m) with
          | none => simp [h1] at h
          | some r1 =>
            obtain ⟨st1, e1⟩ := r1
            simp only [h1] at h
            cases h2 : runF (fuel + 1) st1 (.sendList rest role ex m) with
            | none => simp [h2] at h
            | some r2 =>
              obtain ⟨stx, e2⟩ := r2
              simp only [h2] at h
              obtain ⟨rfl, rfl⟩ : _ ∧ _ := by simpa using h
              exact ihl _ _ _ _ _ _ (hsend _ _ _ _ _ hinv h1) h2
        · rw [if_neg hc] at h
          exact ihl _ _ _ _ _ _ hinv h
    have hbcast : ∀ st role ex m st2 evs, Invariant st →
        runF (fuel + 1) st (.bcast role ex m) = some (st2, evs) → Invariant st2 := by
      intro st role ex m st2 evs hinv h
      rw [runF_bcast _ _ _ _ _ hf, Nat.add_sub_cancel] at h
      exact ih _ _ _ _ hinv h
    intro st c st2 evs hinv h
    cases c with
    | disc cid => exact hdisc _ _ _ _ hinv h
    | discList l => exact hdlist _ _ _ _ hinv h
    | send uid m => exact hsend _ _ _ _ _ hinv h
    | sendList items role ex m => exact hslist _ _ _ _ _ _ _ hinv h
    | bcast role ex m => exact hbcast _ _ _ _ _ _ hinv h

/-- The total wrappers preserve the invariant. -/
theorem send_personal_message_invariant (st : ConnState) (uid : String) (m : NM)
    (hinv : Invariant st) : Invariant (send_personal_message st uid m).1 := by
  unfold send_personal_message
  cases hE : runF (connManagerFuel st) st (.send uid m) with
  | none => simpa using hinv
  | some r =>
    obtain ⟨st2, evs⟩ := r
    simpa using runF_invariant _ _ _ _ _ hinv hE

theorem broadcast_to_role_invariant (st : ConnState) (role : String) (m : NM)
    (ex : Option String) (hinv : Invariant st) : Invariant (broadcast_to_role st role m ex).1 := by
  unfold broadcast_to_role
  cases hE : runF (connManagerFuel st) st (.bcast role ex m) with
  | none => simpa using hinv
  | some r =>
    obtain ⟨st2, evs⟩ := r
    simpa using runF_invariant _ _ _ _ _ hinv hE

theorem disconnect_invariant (st : ConnState) (cid : String)
    (hinv : Invariant st) : Invariant (disconnect st cid).1 := by
  unfold disconnect
  cases hE : runF (connManagerFuel st) st (.disc cid) with
  | none => simpa using hinv
  | some r =>
    obtain ⟨st2, evs⟩ := r
    simpa using runF_invariant _ _ _ _ _ hinv hE

/-! ## Freshness of minted connection ids -/

theorem takeWhile_append_all {α : Type} (p : α → Bool) (xs ys : List α)
    (h : ∀ x ∈ xs, p x = true) : (xs ++ ys).takeWhile p = xs ++ ys.takeWhile p := by
  induction xs with
  | nil => simp
  | cons x rest ih =>
    rw [List.cons_append, List.takeWhile_cons_of_pos (h x (by simp)),
      ih (fun y hy => h y (by simp [hy]))]
    rfl

theorem digitChar_ne_underscore : ∀ d < 10, Nat.digitChar d ≠ '_' := by decide

theorem digitChar_val : ∀ d < 10, (Nat.digitChar d).toNat - 48 = d := by decide

theorem natRepr_no_underscore (n : Nat) : ∀ c ∈ (natRepr n).data, c ≠ '_' := by
  intro c hc
  unfold natRepr at hc
  by_cases hn : n = 0
  · rw [if_pos hn] at hc
    obtain rfl : c = '0' := by simpa using hc
    decide
  · rw [if_neg hn] at hc
    simp only [String.data] at hc
    obtain ⟨d, hd, he⟩ := List.mem_map.mp (List.mem_reverse.mp hc)
    rw [← he]
    exact digitChar_ne_underscore d (Nat.digits_lt_base (by norm_num) hd)

theorem natRepr_decodes (n : Nat) :
    Nat.ofDigits 10 (((natRepr n).data.reverse).map (fun c => c.toNat - 48)) = n := by
  unfold natRepr
  by_cases hn : n = 0
  · rw [if_pos hn, hn]
    rfl
  · rw [if_neg hn]
    simp only [String.data, List.reverse_reverse, List.map_map, Function.comp]
    have hmap : ∀ L : List Nat, (∀ d ∈ L, d < 10) →
        L.map (fun d => (Nat.digitChar d).toNat - 48) = L := by
      intro L
      induction L with
      | nil => intro h2; rfl
      | cons d rest ih =>
        intro hall
        simp only [List.map_cons]
        rw [digitChar_val d (hall d (by simp)), ih (fun x hx => hall x (by simp [hx]))]
    show Nat.ofDigits 10 ((Nat.digits 10 n).map (fun d => (Nat.digitChar d).toNat - 48)) = n
    rw [hmap (Nat.digits 10 n) (fun d hd => Nat.digits_lt_base (by norm_num) hd)]
    exact Nat.ofDigits_digits 10 n

theorem countOf_connId (uid : String) (n : Nat) : countOf (connId uid n) = n := by
  unfold countOf
  have hdata : (connId uid n).data = uid.data ++ ('_' :: (natRepr n).data) := by
    unfold connId
    rw [String.data_append, String.data_append]
    simp
  rw [hdata, List.reverse_append, List.reverse_cons, List.append_assoc,
    List.singleton_append]
  rw [takeWhile_append_all _ _ _
    (by
      intro c hc
      simpa using natRepr_no_underscore n c (List.mem_reverse.mp hc))]
  rw [List.takeWhile_cons_of_neg (by simp)]
  rw [List.append_nil]
  exact natRepr_decodes n

/-! ## `connect` preserves the invariant -/

theorem connect_invariant (st : ConnState) (ws : Chan) (uid : String) (role : Option String)
    (hinv : Invariant st) (huid : uid ≠ "") : Invariant (connect st ws uid role).1 := by
  unfold connect
  apply broadcast_to_role_invariant
  apply send_personal_message_invariant
  set cid := connId uid st.connection_count with hcid
  set prev := (alGet st.user_connections uid).getD [] with hprev
  have hfreshA : cid ∉ keysOf st.active_connections := by
    intro hmem
    have h2 := hinv.cntBound cid hmem
    rw [hcid, countOf_connId] at h2
    exact lt_irrefl _ h2
  have hfreshCU : cid ∉ keysOf st.connection_user := by
    intro hmem
    apply hfreshA
    rw [← alGet_isSome_iff]
    exact hinv.aOfCU cid hmem
  have hprevCU : ∀ c ∈ prev, alGet st.connection_user c = some uid := by
    intro c hc
    rw [hprev] at hc
    cases hUC : alGet st.user_connections uid with
    | none =>
      rw [hUC] at hc
      cases hc
    | some l =>
      rw [hUC] at hc
      simp only [Option.getD_some] at hc
      exact (hinv.fwd (uid, l) (alGet_some_mem _ _ _ hUC)).2.2.2 c hc
  have hnotprev : cid ∉ prev := by
    intro hc
    apply hfreshCU
    rw [← alGet_isSome_iff, hprevCU cid hc]
    rfl
  have hprevnd : prev.Nodup := by
    rw [hprev]
    cases hUC : alGet st.user_connections uid with
    | none => simp
    | some l =>
      simp only [Option.getD_some]
      exact (hinv.fwd (uid, l) (alGet_some_mem _ _ _ hUC)).2.2.1
  rw [if_neg hnotprev]
  have hgoalR : ∀ R : List (String × String), (keysOf R).Nodup →
      (∀ r ∈ R, r.1 = uid ∨ (alGet st.user_connections r.1).isSome = true) →
      Invariant
        { active_connections := alInsert st.active_connections cid ws,
          connection_user := alInsert st.connection_user cid uid,
          user_connections := alInsert st.user_connections uid (prev ++ [cid]),
          user_roles := R,
          connection_count := st.connection_count + 1 } := by
    intro R hndR hlive
    refine ⟨?_, ?_, ?_, ?_, ?_, ?_, ?_, ?_, ?_, ?_⟩
    · exact nodup_keysOf_alInsert _ _ _ hinv.ndA
    · exact nodup_keysOf_alInsert _ _ _ hinv.ndCU
    · exact nodup_keysOf_alInsert _ _ _ hinv.ndUC
    · exact hndR
    · intro c hc
      rcases (mem_keysOf_alInsert_iff _ _ _ _).mp hc with rfl | hcA
      · rw [alGet_alInsert_self]
        rfl
      · have hcne : c ≠ cid := fun he => hfreshA (he ▸ hcA)
        rw [alGet_alInsert_ne _ _ _ _ hcne]
        exact hinv.cuOfA c hcA
    · intro c hc
      rcases (mem_keysOf_alInsert_iff _ _ _ _).mp hc with rfl | hcCU
      · rw [alGet_alInsert_self]
        rfl
      · have hcne : c ≠ cid := fun he => hfreshCU (he ▸ hcCU)
        rw [alGet_alInsert_ne _ _ _ _ hcne]
        exact hinv.aOfCU c hcCU
    · intro p hp
      rcases (mem_alInsert_iff _ _ _ _ hinv.ndCU).mp hp with rfl | ⟨hpCU, hpne⟩
      · rw [alGet_alInsert_self]
        simp
      · by_cases hpu : p.2 = uid
        · rw [hpu, alGet_alInsert_self]
          have h2 := hinv.inv1 p hpCU
          rw [hpu] at h2
          simp only [Option.getD_some]
          exact List.mem_append_left _ (hprev ▸ h2)
        · rw [alGet_alInsert_ne _ _ _ _ hpu]
          exact hinv.inv1 p hpCU
    · intro q hq
      rcases (mem_alInsert_iff _ _ _ _ hinv.ndUC).mp hq with rfl | ⟨hqUC, hqne⟩
      · refine ⟨huid, by simp, ?_, ?_⟩
        · refine List.Nodup.append hprevnd (List.nodup_singleton _) ?_
          intro a ha hb
          rw [List.mem_singleton] at hb
          exact hnotprev (hb ▸ ha)
        · intro c hc
          rcases List.mem_append.mp hc with hc2 | hc2
          · have hcne : c ≠ cid := fun he => hnotprev (he ▸ hc2)
            rw [alGet_alInsert_ne _ _ _ _ hcne]
            exact hprevCU c hc2
          · rw [List.mem_singleton] at hc2
            subst hc2
            rw [alGet_alInsert_self]
      · obtain ⟨hne2, hnil2, hnd2, hmap2⟩ := hinv.fwd q hqUC
        refine ⟨hne2, hnil2, hnd2, ?_⟩
        intro c hc
        have hcCU := hmap2 c hc
        have hcne : c ≠ cid := by
          intro he
          apply hfreshCU
          rw [← alGet_isSome_iff, ← he, hcCU]
          rfl
        rw [alGet_alInsert_ne _ _ _ _ hcne]
        exact hcCU
    · intro r hr
      by_cases hru : r.1 = uid
      · rw [hru, alGet_alInsert_self]
        rfl
      · rw [alGet_alInsert_ne _ _ _ _ hru]
        rcases hlive r hr with h2 | h2
        · exact absurd h2 hru
        · exact h2
    · intro c hc
      rcases (mem_keysOf_alInsert_iff _ _ _ _).mp hc with rfl | hcA
      · rw [hcid, countOf_connId]
        show st.connection_count < st.connection_count + 1
        omega
      · have h2 := hinv.cntBound c hcA
        show countOf c < st.connection_count + 1
        omega
  cases role with
  | none => exact hgoalR st.user_roles hinv.ndR (fun r hr => Or.inr (hinv.roleLive r hr))
  | some rl =>
    dsimp only
    by_cases hrl : rl ≠ ""
    · rw [if_pos hrl]
      refine hgoalR (alInsert st.user_roles uid rl) (nodup_keysOf_alInsert _ _ _ hinv.ndR) ?_
      intro r hr
      rcases (mem_alInsert_iff _ _ _ _ hinv.ndR).mp hr with rfl | ⟨hrR, _⟩
      · exact Or.inl rfl
      · exact Or.inr (hinv.roleLive r hrR)
    · rw [if_neg hrl]
      exact hgoalR st.user_roles hinv.ndR (fun r hr => Or.inr (hinv.roleLive r hr))

/-! ## Send-loop and removal lemmas -/

theorem sendLoop_cons (st : ConnState) (m : NM) (x : String) (rest : List String) :
    sendLoop st m (x :: rest) =
      match alGet st.active_connections x with
      | none => sendLoop st m rest
      | some ch =>
        if ch.ok then (Ev.sent x m.type :: (sendLoop st m rest).1, (sendLoop st m rest).2)
        else (Ev.sendFailed x :: (sendLoop st m rest).1,
          if x ∈ (sendLoop st m rest).2 then (sendLoop st m rest).2
          else x :: (sendLoop st m rest).2) := rfl

theorem sendLoop_sent_mem (l : List String) :
    ∀ (st : ConnState) (m : NM) (cid : String) (ch : Chan),
    cid ∈ l → alGet st.active_connections cid = some ch → ch.ok = true →
    Ev.sent cid m.type ∈ (sendLoop st m l).1 := by
  induction l with
  | nil =>
    intro st m cid ch hc _ _
    cases hc
  | cons x rest ih =>
    intro st m cid ch hc hA hok
    rw [sendLoop_cons]
    rcases List.mem_cons.mp hc with rfl | hc2
    · simp only [hA, hok, if_true]
      exact List.mem_cons_self _ _
    · have hmem := ih st m cid ch hc2 hA hok
      cases hx : alGet st.active_connections x with
      | none => exact hmem
      | some ch2 =>
        dsimp only
        by_cases hok2 : ch2.ok = true
        · rw [if_pos hok2]
          exact List.mem_cons_of_mem _ hmem
        · rw [if_neg hok2]
          exact List.mem_cons_of_mem _ hmem

theorem sendLoop_bad_mem (l : List String) :
    ∀ (st : ConnState) (m : NM) (cid : String) (ch : Chan),
    cid ∈ l → alGet st.active_connections cid = some ch → ch.ok = false →
    cid ∈ (sendLoop st m l).2 := by
  induction l with
  | nil =>
    intro st m cid ch hc _ _
    cases hc
  | cons x rest ih =>
    intro st m cid ch hc hA hbad
    rw [sendLoop_cons]
    rcases List.mem_cons.mp hc with rfl | hc2
    · simp only [hA]
      rw [if_neg (by simp [hbad])]
      show cid ∈ if cid ∈ (sendLoop st m rest).2 then (sendLoop st m rest).2
        else cid :: (sendLoop st m rest).2
      by_cases hin : cid ∈ (sendLoop st m rest).2
      · rw [if_pos hin]
        exact hin
      · rw [if_neg hin]
        exact List.mem_cons_self _ _
    · have hmem := ih st m cid ch hc2 hA hbad
      cases hx : alGet st.active_connections x with
      | none => exact hmem
      | some ch2 =>
        dsimp only
        by_cases hok2 : ch2.ok = true
        · rw [if_pos hok2]
          exact hmem
        · rw [if_neg hok2]
          show cid ∈ if x ∈ (sendLoop st m rest).2 then (sendLoop st m rest).2
            else x :: (sendLoop st m rest).2
          by_cases hin : x ∈ (sendLoop st m rest).2
          · rw [if_pos hin]
            exact hmem
          · rw [if_neg hin]
            exact List.mem_cons_of_mem _ hmem

theorem sendLoop_all_ok (l : List String) :
    ∀ (st : ConnState) (m : NM),
    (∀ cid ∈ l, ∃ ch, alGet st.active_connections cid = some ch ∧ ch.ok = true) →
    sendLoop st m l = (l.map (fun c => Ev.sent c m.type), []) := by
  induction l with
  | nil => intro st m _; rfl
  | cons x rest ih =>
    intro st m hall
    obtain ⟨ch, hA, hok⟩ := hall x (List.mem_cons_self _ _)
    rw [sendLoop_cons, hA]
    simp only [hok, if_true]
    rw [ih st m (fun c hc => hall c (List.mem_cons_of_mem _ hc))]
    rfl

theorem alGet_none_of_sublist {V : Type} {s l : List (String × V)} (hs : s.Sublist l)
    (c : String) (h : alGet l c = none) : alGet s c = none := by
  rw [alGet_eq_none_iff] at h ⊢
  exact fun hc => h ((hs.map Prod.fst).subset hc)

theorem runF_disc_removes (fuel : Nat) (st : ConnState) (cid : String) (st2 : ConnState)
    (evs : List Ev) (hinv : Invariant st)
    (h : runF fuel st (.disc cid) = some (st2, evs)) :
    alGet st2.active_connections cid = none := by
  cases fuel with
  | zero =>
    rw [runF_zero] at h
    exact absurd h (by simp)
  | succ fuel =>
    have hf : fuel + 1 ≠ 0 := Nat.succ_ne_zero fuel
    cases hA : alGet st.active_connections cid with
    | none =>
      rw [runF_disc_not_mem _ _ _ hf hA] at h
      obtain ⟨rfl, rfl⟩ : st = st2 ∧ [] = evs := by simpa using h
      exact hA
    | some ws =>
      rw [runF_disc_mem _ _ _ ws hf hA, discStep] at h
      have hbase : alGet (alErase st.active_connections cid) cid = none :=
        alGet_alErase_self _ _ hinv.ndA
      cases hU : alGet st.connection_user cid with
      | none =>
        simp only [hU] at h
        obtain ⟨rfl, rfl⟩ : _ ∧ _ := by simpa using h
        exact hbase
      | some uid =>
        simp only [hU] at h
        by_cases hg : uid ≠ "" ∧ (alGet st.user_connections uid).isSome = true
        · rw [if_pos hg] at h
          by_cases hl2 : ((alGet st.user_connections uid).getD []).erase cid = []
          · rw [if_pos hl2, Nat.add_sub_cancel] at h
            cases hB : runF fuel
                { st with active_connections := alErase st.active_connections cid,
                          connection_user := alErase st.connection_user cid,
                          user_connections := alErase st.user_connections uid,
                          user_roles := alErase st.user_roles uid }
                (.bcast "hospital_staff" (some uid) (offlineNM uid)) with
            | none => simp [hB] at h
            | some r3 =>
              obtain ⟨st3, evs3⟩ := r3
              simp only [hB] at h
              obtain ⟨rfl, rfl⟩ : _ ∧ _ := by simpa using h
              exact alGet_none_of_sublist (runF_shrink _ _ _ _ _ hB).1 cid hbase
          · rw [if_neg hl2] at h
            obtain ⟨rfl, rfl⟩ : _ ∧ _ := by simpa using h
            exact hbase
        · rw [if_neg hg] at h
          obtain ⟨rfl, rfl⟩ : _ ∧ _ := by simpa using h
          exact hbase

theorem runF_discList_removes (fuel : Nat) (l : List String) :
    ∀ st st2 evs, Invariant st → runF fuel st (.discList l) = some (st2, evs) →
    ∀ cid ∈ l, alGet st2.active_connections cid = none := by
  cases fuel with
  | zero =>
    intro st st2 evs _ h
    rw [runF_zero] at h
    exact absurd h (by simp)
  | succ fuel =>
    induction l with
    | nil =>
      intro st st2 evs _ _ cid hc
      cases hc
    | cons c rest ihl =>
      intro st st2 evs hinv h cid hc
      rw [runF_discList_cons _ _ _ _ (Nat.succ_ne_zero fuel)] at h
      cases h1 : runF (fuel + 1) st (.disc c) with
      | none => simp [h1] at h
      | some r1 =>
        obtain ⟨st1, e1⟩ := r1
        simp only [h1] at h
        cases h2 : runF (fuel + 1) st1 (.discList rest) with
        | none => simp [h2] at h
        | some r2 =>
          obtain ⟨stx, e2⟩ := r2
          simp only [h2] at h
          obtain ⟨rfl, rfl⟩ : _ ∧ _ := by simpa using h
          rcases List.mem_cons.mp hc with rfl | hc2
          · exact alGet_none_of_sublist (runF_shrink _ _ _ _ _ h2).1 cid
              (runF_disc_removes _ _ _ _ _ hinv h1)
          · exact ihl _ _ _ (runF_invariant _ _ _ _ _ hinv h1) h2 cid hc2

/-! ## Claims about the connection registry -/

/-- Identity `u1` with two registered open channels. -/
def ex7 : ConnState :=
  ⟨[("u1_0", ⟨true⟩), ("u1_1", ⟨true⟩)],
   [("u1_0", "u1"), ("u1_1", "u1")],
   [("u1", ["u1_0", "u1_1"])], [], 2⟩

/-- A sample notification. -/
def exMsg : NM := ⟨"t", "T", "M"⟩

/-- C7 counterexample: for the identity `u1` with two registered open
channels, `send_personal_message` does deliver the message to both channels,
but it does not return the delivered count 2 — the Python function returns
None on every path (bare `return` and fall-through). -/
theorem send_count_counterexample :
    send_personal_message_ret ex7 "u1" exMsg = none ∧
    ¬ send_personal_message_ret ex7 "u1" exMsg = some 2 ∧
    (send_personal_message ex7 "u1" exMsg).2 = [Ev.sent "u1_0" "t", Ev.sent "u1_1" "t"] := by
  refine ⟨rfl, by simp [send_personal_message_ret], ?_⟩
  unfold send_personal_message
  rw [show connManagerFuel ex7 = 8 + 1 from rfl]
  rw [runF_send_some (8 + 1) ex7 "u1" exMsg ["u1_0", "u1_1"] (by omega) rfl,
    Nat.add_sub_cancel]
  rw [show (sendLoop ex7 exMsg ["u1_0", "u1_1"]).2 = ([] : List String) from rfl]
  rw [runF_discList_nil 8 ex7 (by omega)]
  rfl

/-- C7 (amended): `send_personal_message` returns no delivered count — the
Python function returns None on every exit — but performs the deliveries: for
an unknown identity it makes no delivery attempt and no state change (the
message is silently dropped, not queued), and for an identity all of whose
registered channels are open it delivers the message once per channel. -/
theorem send_personal_none_return (st : ConnState) (uid : String) (m : NM) :
    (alGet st.user_connections uid = none →
      send_personal_message st uid m = (st, []) ∧
      send_personal_message_ret st uid m = none) ∧
    (∀ l, alGet st.user_connections uid = some l →
      (∀ cid ∈ l, ∃ ch, alGet st.active_connections cid = some ch ∧ ch.ok = true) →
      send_personal_message st uid m = (st, l.map (fun c => Ev.sent c m.type)) ∧
      send_personal_message_ret st uid m = none) := by
  have hf : connManagerFuel st ≠ 0 := by
    unfold connManagerFuel
    omega
  constructor
  · intro hU
    refine ⟨?_, rfl⟩
    unfold send_personal_message
    rw [runF_send_none _ _ _ _ hf hU]
    rfl
  · intro l hU hok
    refine ⟨?_, rfl⟩
    unfold send_personal_message
    rw [runF_send_some _ _ _ _ l hf hU, sendLoop_all_ok l st m hok]
    have h2 : runF (connManagerFuel st - 1) st (.discList ([] : List String)) = some (st, []) :=
      runF_discList_nil _ _ (by unfold connManagerFuel; omega)
    simp [h2]

/-- C7 witness: on the concrete two-open-channel registry the message reaches
both channels with no state change and the function returns None; for an
unknown identity nothing happens and the function returns None. -/
theorem send_personal_none_return_witness :
    (send_personal_message ex7 "u1" exMsg = (ex7, [Ev.sent "u1_0" "t", Ev.sent "u1_1" "t"]) ∧
      send_personal_message_ret ex7 "u1" exMsg = none) ∧
    (send_personal_message ex7 "nobody" exMsg = (ex7, []) ∧
      send_personal_message_ret ex7 "nobody" exMsg = none) := by
  refine ⟨?_, ?_⟩
  · exact (send_personal_none_return ex7 "u1" exMsg).2 ["u1_0", "u1_1"] rfl
      (by
        intro cid hc
        rcases (by simpa using hc : cid = "u1_0" ∨ cid = "u1_1") with rfl | rfl
        · exact ⟨⟨true⟩, rfl, rfl⟩
        · exact ⟨⟨true⟩, rfl, rfl⟩)
  · exact (send_personal_none_return ex7 "nobody" exMsg).1 rfl

/-- Python exceptions the registry code can raise and never catches: the
KeyError of `del self.connection_user[connection_id]` (line 79) when the id is
missing, and CPython's `RuntimeError: dictionary changed size during
iteration`, raised by the `for` of `broadcast_to_role` (line 142) at its next
step once the dict it iterates has changed size. -/
inductive PyErr where
  | keyError
  | runtimeError
deriving DecidableEq

/-- Outcome of a registry operation under the exception-faithful
interpreter: a normal return with the new state and the emitted events, or a
propagating Python exception (which abandons the return value; the partial
registry mutations travel with the unwinding and are not observed here). -/
inductive LRes where
  | ok (st : ConnState) (evs : List Ev)
  | raised (e : PyErr)
deriving DecidableEq

/-- Pending call shapes for `runL`; as `Call`, except that the
`broadcast_to_role` iteration keeps, with the entries remaining to yield, the
`user_roles` size recorded when the `items()` iterator was created — the
datum CPython's dict iterator checks at every `next()`. -/
inductive CallL where
  | disc (cid : String)
  | discList (cids : List String)
  | send (uid : String) (m : NM)
  | sendIter (items : List (String × String)) (n0 : Nat) (role : String) (ex : Option String)
      (m : NM)
  | bcast (role : String) (ex : Option String) (m : NM)

/-- The exception-faithful interpreter of the same mutually recursive
operations as `runF`. Differences, both matching the Python that `runF`
idealises: `disconnect` raises KeyError when line 79's `del` misses (the id
is active but absent from `connection_user`), and the `broadcast_to_role`
loop models the live `self.user_roles.items()` iteration — before yielding
(or finishing), each `.sendIter` step compares the current `user_roles` size
against the size `n0` recorded at iterator creation and raises RuntimeError
on mismatch, exactly CPython's guard. Carrying the entry list alongside the
size is faithful here because the cleanup chain never inserts into
`user_roles`: while iterating, the dict either keeps its size (hence exactly
the recorded entries) or has shrunk, and then the very next `next()` raises.
Exceptions propagate: no frame of `disconnect`, `send_personal_message` or
`broadcast_to_role` catches either error. Fuel is spent on every recursive
call, so the recursion is structural; `none` again means fuel ran out. -/
def runL : Nat → ConnState → CallL → Option LRes
  | 0, _, _ => none
  | fuel + 1, st, c =>
    match c with
    | .disc cid =>
      match alGet st.active_connections cid with
      | none => some (.ok st [])
      | some _ =>
        match alGet st.connection_user cid with
        | none => some (.raised .keyError)
        | some uid =>
          let st1 : ConnState :=
            { st with active_connections := alErase st.active_connections cid,
                      connection_user := alErase st.connection_user cid }
          if uid ≠ "" ∧ (alGet st1.user_connections uid).isSome then
            let l1 := ((alGet st1.user_connections uid).getD []).erase cid
            if l1 = [] then
              let st2 : ConnState :=
                { st1 with user_connections := alErase st1.user_connections uid,
                           user_roles := alErase st1.user_roles uid }
              match runL fuel st2 (.bcast "hospital_staff" (some uid) (offlineNM uid)) with
              | none => none
              | some (.raised e) => some (.raised e)
              | some (.ok st3 evs) => some (.ok st3 (evs ++ [.closed cid]))
            else
              some (.ok { st1 with user_connections := alInsert st1.user_connections uid l1 }
                [.closed cid])
          else some (.ok st1 [.closed cid])
    | .discList [] => some (.ok st [])
    | .discList (cid :: rest) =>
      match runL fuel st (.disc cid) with
      | none => none
      | some (.raised e) => some (.raised e)
      | some (.ok st1 e1) =>
        match runL fuel st1 (.discList rest) with
        | none => none
        | some (.raised e) => some (.raised e)
        | some (.ok st2 e2) => some (.ok st2 (e1 ++ e2))
    | .send uid m =>
      match alGet st.user_connections uid with
      | none => some (.ok st [])
      | some conns =>
        let r := sendLoop st m conns
        match runL fuel st (.discList r.2) with
        | none => none
        | some (.raised e) => some (.raised e)
        | some (.ok st1 e1) => some (.ok st1 (r.1 ++ e1))
    | .sendIter items n0 role ex m =>
      if st.user_roles.length ≠ n0 then some (.raised .runtimeError)
      else
        match items with
        | [] => some (.ok st [])
        | (uid, r) :: rest =>
          if r = role ∧ some uid ≠ ex then
            match runL fuel st (.send uid m) with
            | none => none
            | some (.raised e) => some (.raised e)
            | some (.ok st1 e1) =>
              match runL fuel st1 (.sendIter rest n0 role ex m) with
              | none => none
              | some (.raised e) => some (.raised e)
              | some (.ok st2 e2) => some (.ok st2 (e1 ++ e2))
          else runL fuel st (.sendIter rest n0 role ex m)
    | .bcast role ex m =>
      runL fuel st (.sendIter st.user_roles st.user_roles.length role ex m)

/-- Identities `u1` and `u2`, each owning one channel whose sends fail; `u2`
has the cached role `hospital_staff`. -/
def exL : ConnState :=
  ⟨[("u1_0", ⟨false⟩), ("u2_0", ⟨false⟩)],
   [("u1_0", "u1"), ("u2_0", "u2")],
   [("u1", ["u1_0"]), ("u2", ["u2_0"])],
   [("u2", "hospital_staff")], 2⟩

/-- C8: a send failure during a fan-out CAN propagate a fault out of the
fan-out, contrary to the claim. In the registry `exL` — invariant-satisfying:
u1 and u2 each own one failing channel, u2's cached role is hospital_staff —
both a personal-message fan-out to u1 and a direct role broadcast end in
Python's RuntimeError: the failure cleanup disconnects u1's last channel,
whose offline announcement iterates the live `user_roles` dict; the send to
u2 inside that iteration fails too, its cleanup disconnects u2's last channel
and deletes u2's `user_roles` entry mid-iteration, and the iterator's next
step raises, with no enclosing frame catching the error. -/
theorem fanout_failure_raises :
    Invariant exL ∧
    runL 12 exL (.send "u1" exMsg) = some (.raised .runtimeError) ∧
    runL 12 exL (.bcast "hospital_staff" none exMsg) = some (.raised .runtimeError) := by
  refine ⟨⟨?_, ?_, ?_, ?_, ?_, ?_, ?_, ?_, ?_, ?_⟩, ?_, ?_⟩ <;> decide

/-- C10: the mutual recursion among `disconnect`, the offline broadcast
(`broadcast_to_role`) and the send-failure cleanup of
`send_personal_message` terminates from every registry state: fuel linear in
the number of registered channels (three frames per removal cycle, see
`connManagerFuel`) always suffices, because each effective disconnect removes
one registered channel and the chain never adds one (`runF_shrink`). -/
theorem cleanup_recursion_terminates (st : ConnState) (cid uid role : String)
    (ex : Option String) (m : NM) :
    (runF (connManagerFuel st) st (.disc cid)).isSome = true ∧
    (runF (connManagerFuel st) st (.send uid m)).isSome = true ∧
    (runF (connManagerFuel st) st (.bcast role ex m)).isSome = true :=
  ⟨runF_fuel_isSome st _, runF_fuel_isSome st _, runF_fuel_isSome st _⟩

/-! ## C9: the registry invariant under driven operations -/

/-- Side condition of the amended claim: connecting identities are nonempty
(Python truthiness makes `disconnect` skip the set cleanup for the empty
identity). -/
def opOk : Op → Prop
  | .connect _ uid _ => uid ≠ ""
  | .disconnect _ => True

theorem invariant_empty : Invariant emptyConn := by
  refine ⟨?_, ?_, ?_, ?_, ?_, ?_, ?_, ?_, ?_, ?_⟩ <;> simp [emptyConn, keysOf, alGet]

theorem foldl_opStep_invariant (ops : List Op) :
    ∀ st, Invariant st → (∀ op ∈ ops, opOk op) → Invariant (ops.foldl opStep st) := by
  induction ops with
  | nil =>
    intro st hinv _
    simpa using hinv
  | cons op rest ih =>
    intro st hinv hok
    rw [List.foldl_cons]
    refine ih _ ?_ (fun o ho => hok o (List.mem_cons_of_mem _ ho))
    cases op with
    | connect ok uid role =>
      exact connect_invariant st ⟨ok⟩ uid role hinv (hok _ (List.mem_cons_self _ _))
    | disconnect cid => exact disconnect_invariant st cid hinv

/-- C9 (amended): starting from the empty registry, the invariant holds after
every sequence of connect/disconnect operations in which every connecting
identity is a nonempty string: each channel id belongs to exactly one
identity's set, the inverse index agrees with it, and an identity's role
cache entry is purged in the same operation that removes its last channel. -/
theorem registry_invariant_nonempty_ids (ops : List Op)
    (hok : ∀ op ∈ ops, opOk op) : Invariant (runOps ops) :=
  foldl_opStep_invariant ops emptyConn invariant_empty hok

/-- C9 witness: a connect (identity u1, role hospital_staff) followed by a
disconnect keeps the invariant. -/
theorem registry_invariant_nonempty_ids_witness :
    Invariant (runOps [Op.connect true "u1" (some "hospital_staff"),
      Op.disconnect "u1_0"]) := by
  refine registry_invariant_nonempty_ids _ ?_
  intro op hop
  rcases (by simpa using hop :
      op = Op.connect true "u1" (some "hospital_staff") ∨ op = Op.disconnect "u1_0")
    with rfl | rfl
  · show ("u1" : String) ≠ ""
    decide
  · trivial

/-- Registry after connecting the empty-string identity. -/
def stAfterConnect : ConnState :=
  ⟨[(connId "" 0, ⟨true⟩)], [(connId "" 0, "")], [("", [connId "" 0])], [], 1⟩

/-- Registry after then disconnecting that channel: the id has left both
id-keyed maps but still sits in the empty identity's set — the invariant is
broken. -/
def stBroken : ConnState :=
  ⟨[], [], [("", [connId "" 0])], [], 1⟩

theorem sendA_eval : send_personal_message stAfterConnect "" welcomeNM
    = (stAfterConnect, [Ev.sent (connId "" 0) "connection"]) := by
  unfold send_personal_message
  rw [show connManagerFuel stAfterConnect = 5 + 1 from rfl]
  rw [runF_send_some (5 + 1) stAfterConnect "" welcomeNM [connId "" 0] (by omega) rfl,
    Nat.add_sub_cancel]
  rw [show (sendLoop stAfterConnect welcomeNM [connId "" 0]).2 = ([] : List String) from rfl]
  rw [runF_discList_nil 5 stAfterConnect (by omega)]
  rfl

theorem bcastA_eval : broadcast_to_role stAfterConnect "hospital_staff" (onlineNM "") (some "")
    = (stAfterConnect, []) := by
  unfold broadcast_to_role
  rw [show connManagerFuel stAfterConnect = 5 + 1 from rfl]
  rw [runF_bcast (5 + 1) stAfterConnect "hospital_staff" (some "") (onlineNM "") (by omega),
    Nat.add_sub_cancel]
  rw [show stAfterConnect.user_roles = ([] : List (String × String)) from rfl]
  rw [runF_sendList_nil 5 stAfterConnect "hospital_staff" (some "") (onlineNM "") (by omega)]
  rfl

theorem connect_empty_eval : opStep emptyConn (Op.connect true "" none) = stAfterConnect := by
  show (broadcast_to_role (send_personal_message stAfterConnect "" welcomeNM).1
      "hospital_staff" (onlineNM "") (some "")).1 = stAfterConnect
  rw [sendA_eval]
  dsimp only
  rw [bcastA_eval]

theorem disconnect_empty_eval :
    opStep stAfterConnect (Op.disconnect (connId "" 0)) = stBroken := by
  show (disconnect stAfterConnect (connId "" 0)).1 = stBroken
  unfold disconnect
  rw [show connManagerFuel stAfterConnect = 5 + 1 from rfl]
  rw [runF_disc_mem (5 + 1) stAfterConnect (connId "" 0) ⟨true⟩ (by omega) rfl]
  rw [discStep]
  simp only [show alGet stAfterConnect.connection_user (connId "" 0) = some "" from rfl]
  rw [if_neg (by simp)]
  rfl

/-- C9 counterexample: connecting the EMPTY identity (so the minted channel id
is "_0") and then disconnecting it breaks the invariant: Python's
`if user_id and ...` treats the empty string as false, so `disconnect`
removes the channel from `active_connections` and `connection_user` but
leaves it inside the empty identity's `user_connections` set. -/
theorem registry_invariant_counterexample :
    connId "" 0 = "_0" ∧
    ¬ Invariant (runOps [Op.connect true "" none, Op.disconnect (connId "" 0)]) := by
  refine ⟨by decide, ?_⟩
  intro hinv
  rw [show runOps [Op.connect true "" none, Op.disconnect (connId "" 0)] = stBroken from by
    unfold runOps
    rw [List.foldl_cons, connect_empty_eval, List.foldl_cons, disconnect_empty_eval]
    rfl] at hinv
  exact (hinv.fwd ("", [connId "" 0]) (by simp [stBroken])).1 rfl

end HealthHub
